import Mathlib

/-!
Verification development for the Perl-to-Java migration tool's structural
extraction pipeline. The definitions below are a shallow embedding of
`perl parser/perform_perl_parser.py` and `perl parser/neo4j_writer.py`:
pure Lean functions mirroring the Python functions line by line. File
contents are modelled as the list of lines the Python code obtains from
`readlines()` (each line may carry its trailing newline); Python `str` is
modelled by `String` (a list of characters), Python `dict` by an
insertion-ordered association list in which assigning to an existing key
updates it in place (CPython semantics), and Python `set` by an
insertion-ordered duplicate-free list.
-/

namespace PerlPipeline

/-- The whitespace set of Python `str.strip()` and of the regex class `\s`
(ASCII part; the sources only ever meet ASCII whitespace). -/
def isPySpace (c : Char) : Bool :=
  c = ' ' || c = '\t' || c = '\n' || c = '\r' || c = '\x0b' || c = '\x0c'

/-- Strip trailing `isPySpace` characters. -/
def rstripChars : List Char → List Char
  | [] => []
  | c :: rest =>
    match rstripChars rest with
    | [] => if isPySpace c then [] else [c]
    | x :: xs => c :: x :: xs

/-- Python `str.strip()` on the character list. -/
def pstripChars (cs : List Char) : List Char :=
  rstripChars (cs.dropWhile isPySpace)

/-- Python `str.strip()`. -/
def pstrip (s : String) : String := ⟨pstripChars s.data⟩

/-- Python `str.startswith(p)`. -/
def strStartsWith (s p : String) : Bool := p.data.isPrefixOf s.data

/-- Drop the first `n` characters of a string (Python `s[n:]`). -/
def strDrop (s : String) (n : Nat) : String := ⟨s.data.drop n⟩

/-- Python `c in s` membership test for a single character. -/
def strContains (s : String) (c : Char) : Bool := s.data.contains c

/-- Python `"".join(lines)`. -/
def strJoin (ls : List String) : String := ⟨(ls.map String.data).flatten⟩

/-- First whitespace-separated word of a Python string, i.e. `s.split()[0]`;
`none` when `s.split()` is empty and the Python indexing would raise. -/
def firstWord (s : String) : Option String :=
  match s.data.dropWhile isPySpace with
  | [] => none
  | c :: rest => some ⟨(c :: rest).takeWhile (fun x => !isPySpace x)⟩

/-- Python `s.split('::')[-1]`: the text after the last (left-to-right,
non-overlapping) occurrence of `::`. -/
def lastColonSeg : List Char → List Char → List Char
  | _acc, ':' :: ':' :: rest => lastColonSeg [] rest
  | acc, c :: rest => lastColonSeg (acc ++ [c]) rest
  | acc, [] => acc

/-- Python `s.split(',')`. -/
def splitComma : List Char → List (List Char)
  | [] => [[]]
  | ',' :: rest => [] :: splitComma rest
  | c :: rest =>
    match splitComma rest with
    | s :: ss => (c :: s) :: ss
    | [] => [[c]]

/-- Insertion-ordered dictionary update, as in CPython: assigning to an
existing key replaces its value in place, a new key is appended. -/
def dictInsert {κ α : Type} [DecidableEq κ] : List (κ × α) → κ → α → List (κ × α)
  | [], k, v => [(k, v)]
  | (k₀, v₀) :: rest, k, v =>
    if k₀ = k then (k₀, v) :: rest else (k₀, v₀) :: dictInsert rest k v

/-- Dictionary lookup (`d.get(k)` / `k in d`). -/
def lookupD {κ α : Type} [DecidableEq κ] : List (κ × α) → κ → Option α
  | [], _ => none
  | (k₀, v₀) :: rest, k => if k₀ = k then some v₀ else lookupD rest k

/-- Python `set.add` on the insertion-ordered list model of a set. -/
def setAdd (l : List String) (x : String) : List String :=
  if x ∈ l then l else l ++ [x]

/-! ## Models of the regular expressions used by the parser

Each Python regex of `perform_perl_parser.py` is modelled by a dedicated
total function whose success condition and captured group were derived from
the regex's backtracking behaviour on arbitrary input.  All of them are
applied by the source to already-stripped lines.
-/

/-- Shared tail of the patterns `package\s+([^;]+);?` and
`^\s*(use|no)\s+([^;]+);?`: matches `\s+([^;]+);?` at the start of `s`
(the text that follows the keyword) and returns group 1 un-stripped.
With `w` leading whitespace characters and `p` the maximal `;`-free prefix,
the regex matches iff `1 ≤ w` and `2 ≤ p.length`, and greedy matching with
backtracking makes group 1 equal to `p` minus its first
`min w (p.length - 1)` characters. -/
def kwRest (s : String) : Option String :=
  let cs := s.data
  let w := (cs.takeWhile isPySpace).length
  let p := cs.takeWhile (· != ';')
  if 1 ≤ w ∧ 2 ≤ p.length then some ⟨p.drop (min w (p.length - 1))⟩ else none

/-- `re.match(r'^\s*package\s+([^;]+);?', stripped)` followed by
`.group(1).strip()` (perform_perl_parser.py line 65 and 71). The input is
already stripped, so `^\s*` matches the empty string. -/
def pkgMatch (s : String) : Option String :=
  if strStartsWith s "package" then (kwRest (strDrop s 7)).map pstrip else none

/-- `re.match(r'^\s*(use|no)\s+([^;]+);?', stripped)` followed by
`.group(2).strip()` (perform_perl_parser.py lines 97-101). -/
def useMatch (s : String) : Option String :=
  if strStartsWith s "use" then (kwRest (strDrop s 3)).map pstrip
  else if strStartsWith s "no" then (kwRest (strDrop s 2)).map pstrip
  else none

/-- `re.match(r'sub\s+([^\s{]+)', stripped)` followed by `.group(1)`
(perform_perl_parser.py line 107); the class `[^\s{]` excludes whitespace
and the opening brace, so the group is the maximal such run after the
mandatory whitespace. -/
def subMatch (s : String) : Option String :=
  if strStartsWith s "sub" then
    let t := (strDrop s 3).data
    if 1 ≤ (t.takeWhile isPySpace).length then
      match t.dropWhile isPySpace with
      | [] => none
      | c :: rest =>
        if c = '{' then none
        else some ⟨(c :: rest).takeWhile (fun x => !isPySpace x && x != '{')⟩
    else none
  else none

/-- `line.count('{') - line.count('}')` (perform_perl_parser.py line 111). -/
def braceDelta (l : String) : Int :=
  (l.data.countP (· = '{') : Int) - (l.data.countP (· = '}') : Int)

/-- One attempt of `re.search(r'my\s*\(([^)]+)\)\s*=\s*@_', body)` anchored
at the start of `cs`; returns group 1. -/
def paramMatchAt : List Char → Option (List Char)
  | 'm' :: 'y' :: rest =>
    (match rest.dropWhile isPySpace with
     | '(' :: r2 =>
       let g := r2.takeWhile (· != ')')
       if g.isEmpty then none
       else
         match r2.dropWhile (· != ')') with
         | ')' :: r3 =>
           (match r3.dropWhile isPySpace with
            | '=' :: r5 =>
              (match r5.dropWhile isPySpace with
               | '@' :: '_' :: _ => some g
               | _ => none)
            | _ => none)
         | _ => none
     | _ => none)
  | _ => none

/-- `re.search` scan for the parameter pattern: try every start position
left to right (perform_perl_parser.py line 124). -/
def paramSearch : List Char → Option (List Char)
  | [] => none
  | c :: rest =>
    match paramMatchAt (c :: rest) with
    | some g => some g
    | none => paramSearch rest

/-- Parameter extraction from a sub body (perform_perl_parser.py line 125):
`[p.strip() for p in match.group(1).split(',')]`, or `[]` without a match. -/
def extractParams (body : String) : List String :=
  match paramSearch body.data with
  | some g => (splitComma g).map (fun p => pstrip ⟨p⟩)
  | none => []

/-! ## Block segmenter: `parse_perl_file_to_blocks` -/

/-- The raw block dictionaries built by `parse_perl_file_to_blocks`:
either `{'type': 'global_scope', 'lines': ...}` or
`{'type': 'package', 'name': ..., 'lines': ...}`. -/
inductive RawBlock where
  | globalScope (lines : List String)
  | pkgBlock (name : String) (lines : List String)
deriving DecidableEq, Repr

def RawBlock.lines : RawBlock → List String
  | .globalScope ls => ls
  | .pkgBlock _ ls => ls

/-- `block.get('name')`: `None` for a global-scope block. -/
def RawBlock.name? : RawBlock → Option String
  | .globalScope _ => none
  | .pkgBlock n _ => some n

/-- `current_block['lines'].append(line)`. -/
def RawBlock.addLine : RawBlock → String → RawBlock
  | .globalScope ls, l => .globalScope (ls ++ [l])
  | .pkgBlock n ls, l => .pkgBlock n (ls ++ [l])

/-- `any(l.strip() for l in lines)` (perform_perl_parser.py lines 68/79). -/
def hasContentL (ls : List String) : Bool :=
  ls.any (fun l => !(pstrip l).data.isEmpty)

def RawBlock.hasContent (b : RawBlock) : Bool := hasContentL b.lines

/-- The loop of `parse_perl_file_to_blocks` (perform_perl_parser.py lines
60-80): shebang lines are dropped, a package-declaration line closes the
current accumulator (kept only when it has a non-blank line) and opens a
package accumulator, any other line is appended to the current accumulator.
The `inside_package` flag of the source is set but never read, so it is not
modelled. -/
def parseBlocksAux : RawBlock → List String → List RawBlock
  | cur, [] => if cur.hasContent then [cur] else []
  | cur, l :: ls =>
    let s := pstrip l
    if strStartsWith s "#!" then parseBlocksAux cur ls
    else
      match pkgMatch s with
      | some nm =>
        (if cur.hasContent then [cur] else []) ++ parseBlocksAux (.pkgBlock nm []) ls
      | none => parseBlocksAux (cur.addLine l) ls

/-- `parse_perl_file_to_blocks` on the lines read from the file
(perform_perl_parser.py lines 45-82; the I/O error branch that returns `[]`
is outside the model, which receives the lines directly). -/
def parse_perl_file_to_blocks (lines : List String) : List RawBlock :=
  parseBlocksAux (.globalScope []) lines

/-- Specification helper for the block-count property: the leading segment
plus one segment per package-declaration line, with shebang lines dropped —
the same scan as `parseBlocksAux` but keeping every segment. -/
def segmentsAux : List String → List String → List (List String)
  | cur, [] => [cur]
  | cur, l :: ls =>
    let s := pstrip l
    if strStartsWith s "#!" then segmentsAux cur ls
    else if (pkgMatch s).isSome then cur :: segmentsAux [] ls
    else segmentsAux (cur ++ [l]) ls

def segments (lines : List String) : List (List String) := segmentsAux [] lines

/-- Number of namespace-declaration lines of a file (shebang lines cannot
match the package pattern, and package lines are counted wherever they
occur, exactly as the segmenter sees them). -/
def countPkgLines (lines : List String) : Nat :=
  (lines.filter (fun l => (pkgMatch (pstrip l)).isSome)).length

/-! ## Block content classifier: `parse_block_content` -/

/-- A `{"type": "UseStatement", "module": ...}` record as produced by
`parse_block_content` (the `source_file` key is added later by
`create_ast_from_file`). -/
structure ParsedUse where
  module : String
deriving DecidableEq, Repr

/-- A `SubDefinition` record (perform_perl_parser.py lines 127-134). -/
structure SubDef where
  name : String
  parameters : List String
  body : String
  package : Option String
  full_name : String
deriving DecidableEq, Repr

/-- The triple returned by `parse_block_content`. -/
structure ClassifiedBlock where
  use_statements : List ParsedUse
  methods : List SubDef
  execution_lines : List String
deriving DecidableEq, Repr

/-- The brace-balance loop (perform_perl_parser.py lines 113-116): starting
from the net brace count `c` of the opening line, consume further lines
while the count is positive and lines remain; returns the consumed lines
and the remaining ones. -/
def consumeBody : Int → List String → List String × List String
  | _, [] => ([], [])
  | c, l :: ls =>
    if 0 < c then
      let r := consumeBody (c + braceDelta l) ls
      (l :: r.1, r.2)
    else ([], l :: ls)

theorem consumeBody_snd_length_le (c : Int) (ls : List String) :
    (consumeBody c ls).2.length ≤ ls.length := by
  induction ls generalizing c with
  | nil => simp [consumeBody]
  | cons l ls ih =>
    by_cases h : (0 : Int) < c
    · simpa [consumeBody, h] using Nat.le_succ_of_le (ih (c + braceDelta l))
    · simp [consumeBody, h]

/-- `full_sub[first_brace + 1:last_brace].strip() if first_brace != -1 else ''`
(perform_perl_parser.py lines 120-122).  When the span holds no `}` at all,
Python's `rfind` returns `-1` and the slice end `-1` denotes the last index,
which the model reproduces. -/
def extractBody (full : String) : String :=
  let cs := full.data
  match cs.findIdx? (· = '{') with
  | none => ""
  | some i =>
    let endIdx :=
      match cs.reverse.findIdx? (· = '}') with
      | some rj => cs.length - 1 - rj
      | none => cs.length - 1
    pstrip ⟨(cs.drop (i + 1)).take (endIdx - (i + 1))⟩

/-- `full_name` (perform_perl_parser.py line 133): Python's conditional
treats both `None` and the empty string as falsy. -/
def pyFullName (pkg : Option String) (nm : String) : String :=
  match pkg with
  | some p => if p.data.isEmpty then nm else p ++ "::" ++ nm
  | none => nm

/-- The scan of `parse_block_content` (perform_perl_parser.py lines
84-142), written with a structural fuel argument so that the recursion is
structural: every step consumes at least one line, so with fuel
`lines.length` the fuel-exhausted clause is dead code
(`pbcGo_fuel_irrelevant` below makes this precise). -/
def pbcGo (pkg : Option String) : Nat → List String → ClassifiedBlock
  | _, [] => ⟨[], [], []⟩
  | 0, _ :: _ => ⟨[], [], []⟩
  | fuel + 1, l :: ls =>
    let s := pstrip l
    match useMatch s with
    | some m =>
      let r := pbcGo pkg fuel ls
      ⟨⟨m⟩ :: r.use_statements, r.methods, r.execution_lines⟩
    | none =>
      match (if strStartsWith s "sub " then subMatch s else none), strContains l '{' with
      | some nm, true =>
        let consumed := consumeBody (braceDelta l) ls
        let full := strJoin (l :: consumed.1)
        let body := extractBody full
        let r := pbcGo pkg fuel consumed.2
        ⟨r.use_statements,
         ⟨nm, extractParams body, body, pkg, pyFullName pkg nm⟩ :: r.methods,
         r.execution_lines⟩
      | _, _ =>
        let r := pbcGo pkg fuel ls
        ⟨r.use_statements, r.methods, l :: r.execution_lines⟩

/-- `parse_block_content` (perform_perl_parser.py lines 84-142): one forward
scan classifying each line as a use/no statement, the opening of a sub
definition (only when the line also carries an opening brace), or residual
executable code. -/
def parse_block_content (lines : List String) (pkg : Option String) : ClassifiedBlock :=
  pbcGo pkg lines.length lines

/-- Any fuel at least `lines.length` gives the same scan result: the fuel
clause of `pbcGo` is unreachable on the wrapper's inputs. -/
theorem pbcGo_fuel_irrelevant (pkg : Option String) :
    ∀ (fuel fuel' : Nat) (lines : List String),
      lines.length ≤ fuel → lines.length ≤ fuel' →
      pbcGo pkg fuel lines = pbcGo pkg fuel' lines := by
  intro fuel
  induction fuel with
  | zero =>
    intro fuel' lines h _
    have : lines = [] := List.eq_nil_of_length_eq_zero (Nat.le_zero.mp h)
    subst this
    cases fuel' <;> rfl
  | succ f ih =>
    intro fuel' lines h h'
    cases lines with
    | nil => cases fuel' <;> rfl
    | cons l ls =>
      cases fuel' with
      | zero => exact absurd h' (by simp)
      | succ f' =>
        simp only [List.length_cons, Nat.succ_le_succ_iff] at h h'
        have hc : (consumeBody (braceDelta l) ls).2.length ≤ ls.length :=
          consumeBody_snd_length_le _ _
        simp only [pbcGo]
        rw [ih f' ls h h']
        rw [ih f' (consumeBody (braceDelta l) ls).2 (le_trans hc h) (le_trans hc h')]

/-! ## File AST builder: `create_ast_from_file` and `process_single_file` -/

/-- A use-statement record inside a file AST; `create_ast_from_file` adds
`source_file` to every record produced by `parse_block_content`. -/
structure UseStmt where
  module : String
  source_file : String
deriving DecidableEq, Repr

/-- A `ScriptExecution` record (perform_perl_parser.py lines 168-172). -/
structure ScriptExec where
  body : String
  source_file : String
deriving DecidableEq, Repr

/-- A `GlobalScope` record (perform_perl_parser.py lines 185-191); the
source adds the `functions` key only when the method list is non-empty,
which is modelled by the list being empty. -/
structure GlobalScopeB where
  body : String
  source_file : String
  functions : List SubDef
deriving DecidableEq, Repr

/-- A `PackageDeclaration` record (perform_perl_parser.py lines 174-181). -/
structure PackageDecl where
  name : String
  use_statements : List UseStmt
  methods : List SubDef
  script_execution : Option ScriptExec
  source_file : String
deriving DecidableEq, Repr

/-- A `PerlFile` AST (perform_perl_parser.py lines 193-199). -/
structure PerlFileAST where
  source_file : String
  use_statements : List UseStmt
  packages : List PackageDecl
  global_scope : Option GlobalScopeB
deriving DecidableEq, Repr

/-- `has_code` (perform_perl_parser.py lines 156-157). -/
def has_code (ls : List String) : Bool :=
  ls.any (fun l => !(pstrip l).data.isEmpty && !strStartsWith (pstrip l) "#")

/-- Loop state of `create_ast_from_file`: packages so far, the (last)
global-scope block, and the accumulated top-level use statements. -/
structure AstState where
  packages : List PackageDecl
  global_scope : Option GlobalScopeB
  top_level_use : List UseStmt
deriving DecidableEq, Repr

/-- One iteration of the block loop of `create_ast_from_file`
(perform_perl_parser.py lines 159-191). -/
def astStep (perl_file : String) (st : AstState) (block : RawBlock) : AstState :=
  let c := parse_block_content block.lines block.name?
  let uses := c.use_statements.map (fun u => UseStmt.mk u.module perl_file)
  match block with
  | .pkgBlock nm _ =>
    let pse :=
      if has_code c.execution_lines then
        some (ScriptExec.mk (pstrip (strJoin c.execution_lines)) perl_file)
      else none
    { st with packages := st.packages ++ [⟨nm, uses, c.methods, pse, perl_file⟩] }
  | .globalScope _ =>
    { st with
      global_scope := some ⟨pstrip (strJoin c.execution_lines), perl_file, c.methods⟩,
      top_level_use := st.top_level_use ++ uses }

/-- `create_ast_from_file` (perform_perl_parser.py lines 144-199): returns
`None` when the segmenter produced no blocks. -/
def create_ast_from_file (perl_file : String) (lines : List String) :
    Option PerlFileAST :=
  let raw := parse_perl_file_to_blocks lines
  if raw.isEmpty then none
  else
    let st := raw.foldl (astStep perl_file) ⟨[], none, []⟩
    some ⟨perl_file, st.top_level_use, st.packages, st.global_scope⟩

/-- The result record of `process_single_file`
(perform_perl_parser.py lines 408-418). -/
structure ProcessResult where
  file : String
  status : String
  error : Option String
  ast : Option PerlFileAST
deriving DecidableEq, Repr

/-- `process_single_file` (perform_perl_parser.py lines 408-418); the model
is total, so the generic exception branch cannot fire. -/
def process_single_file (perl_file : String) (lines : List String) : ProcessResult :=
  match create_ast_from_file perl_file lines with
  | none => ⟨perl_file, "failed", some "Failed to create AST", none⟩
  | some a => ⟨perl_file, "success", none, some a⟩

/-! ## Project assembler: `analyze_dependencies` -/

/-- A `package_definitions` entry (perform_perl_parser.py lines 374-377). -/
structure PkgDefInfo where
  file : String
  methods : List String
deriving DecidableEq, Repr

/-- The flat use-statement list gathered by `analyze_dependencies`
(perform_perl_parser.py lines 369-379): per file, first the file-level use
statements, then those of each package. -/
def all_use_statements (files : List PerlFileAST) : List UseStmt :=
  files.flatMap (fun f => f.use_statements ++ f.packages.flatMap (fun p => p.use_statements))

/-- The `package_definitions` dictionary (perform_perl_parser.py lines
373-377): a later package with the same name overwrites in place. -/
def package_definitions (files : List PerlFileAST) : List (String × PkgDefInfo) :=
  files.foldl
    (fun d f =>
      f.packages.foldl
        (fun d p => dictInsert d p.name ⟨f.source_file, p.methods.map (fun m => m.name)⟩)
        d)
    []

/-- `dependencies[file_of_use].add(...)` on the `defaultdict(set)` model. -/
def depAdd (acc : List (String × List String)) (k v : String) :
    List (String × List String) :=
  match lookupD acc k with
  | some s => dictInsert acc k (setAdd s v)
  | none => acc ++ [(k, [v])]

/-- The use-statement loop of `analyze_dependencies` (perform_perl_parser.py
lines 381-387). `module.split()[0]` raises `IndexError` when the module
text is whitespace-only, which the model surfaces as an `Except.error`. -/
def depFold (pkgDefs : List (String × PkgDefInfo)) :
    List (String × List String) → List UseStmt →
    Except String (List (String × List String))
  | acc, [] => .ok acc
  | acc, u :: us =>
    match firstWord u.module with
    | none => .error "IndexError: list index out of range"
    | some w =>
      let acc :=
        match lookupD pkgDefs w with
        | some info => depAdd acc u.source_file info.file
        | none => acc
      depFold pkgDefs acc us

/-- `analyze_dependencies` (perform_perl_parser.py lines 363-389): the
per-file dependency sets and the package-definition registry. -/
def analyze_dependencies (files : List PerlFileAST) :
    Except String (List (String × List String) × List (String × PkgDefInfo)) :=
  (depFold (package_definitions files) [] (all_use_statements files)).map
    (fun d => (d, package_definitions files))

/-! ## Global function registry: first pass of `analyze_cross_file_calls` -/

/-- A `global_functions` entry (perform_perl_parser.py lines 219-228). -/
structure FuncInfo where
  file : String
  package : String
  method_name : String
  short_call_patterns : List String
deriving DecidableEq, Repr

/-- The registry value stored for a method (perform_perl_parser.py lines
219-228), including the `short_call_patterns` list built there. -/
def funcInfoOf (f : PerlFileAST) (p : PackageDecl) (m : SubDef) : FuncInfo :=
  ⟨f.source_file, p.name, m.name,
   [m.name, p.name ++ "::" ++ m.name, "$obj->" ++ m.name]⟩

/-- The `(full_name, info)` assignments a single file contributes to the
registry, in iteration order. -/
def declPairs (f : PerlFileAST) : List (String × FuncInfo) :=
  f.packages.flatMap (fun p => p.methods.map (fun m => (m.full_name, funcInfoOf f p m)))

/-- The registry-building pass of `analyze_cross_file_calls`
(perform_perl_parser.py lines 205-228): a plain dictionary assignment per
method, so a duplicate `full_name` silently overwrites the earlier entry
in place and nothing else is recorded.  (The `package_to_file` dictionary
built alongside it is never read and is not modelled.) -/
def global_function_registry (files : List PerlFileAST) : List (String × FuncInfo) :=
  files.foldl
    (fun reg f =>
      f.packages.foldl
        (fun reg p =>
          p.methods.foldl
            (fun reg m => dictInsert reg m.full_name (funcInfoOf f p m))
            reg)
        reg)
    []

/-- A registry conflict record as the specification demands one. -/
structure RegistryConflict where
  qualified_name : String
  earlier_file : String
  later_file : String
deriving DecidableEq, Repr

/-- Modelled from the spec, not from the source (the source has no
counterpart): section 4.4 requires that "a later insertion with an existing
key overwrites and is logged as a conflict"; this fold produces the conflict
list that policy prescribes for the registry-building pass. -/
def registry_conflicts_spec (files : List PerlFileAST) : List RegistryConflict :=
  ((files.flatMap declPairs).foldl
    (fun (st : List (String × FuncInfo) × List RegistryConflict) kv =>
      match lookupD st.1 kv.1 with
      | some prev => (dictInsert st.1 kv.1 kv.2, st.2 ++ [⟨kv.1, prev.file, kv.2.file⟩])
      | none => (st.1 ++ [kv], st.2))
    ([], [])).2

/-! ## Cross-file call resolver: the direct-function matcher

`find_function_calls_in_code` (perform_perl_parser.py lines 275-361) runs
four regex patterns over a body.  The claims under scrutiny concern the
direct-function pattern `(\w+)\s*\(` (line 285) and its resolution loop
(lines 344-359); that pattern and branch are modelled here.  A pattern-3
match can never contain `->new`, so every such match reaches the
direct-function branch of the source.
-/

/-- A `CrossFileCall` record (perform_perl_parser.py lines 347-358). -/
structure CrossFileCall where
  caller_file : String
  caller_package : String
  caller_method : Option String
  target_file : String
  target_package : String
  target_method : String
  target_full_name : String
  call_pattern : String
  call_type : String
deriving DecidableEq, Repr

/-- Python `\w` (ASCII part, as in the identifiers these sources meet). -/
def isWordChar (c : Char) : Bool := c.isAlphanum || c = '_'

/-- A match of the direct-function pattern `(\w+)\s*\(`: the identifier
(group 1) and the full matched text (group 0). -/
structure DirectMatch where
  ident : String
  pattern : String
deriving DecidableEq, Repr

theorem dropWhile_length_le {α : Type} (p : α → Bool) (l : List α) :
    (l.dropWhile p).length ≤ l.length := by
  induction l with
  | nil => simp [List.dropWhile]
  | cons c cs ih =>
    by_cases h : p c
    · simp only [List.dropWhile, h]
      exact Nat.le_succ_of_le ih
    · simp [List.dropWhile, h]

/-- `re.finditer(r'(\w+)\s*\(', code)`: at each position the greedy scan
matches a maximal word run, optional whitespace, then a literal `(`; a
failed position moves one character right, a successful match resumes
after its closing parenthesis (non-overlapping matches, as `finditer`). -/
def findDirectGo : Nat → List Char → List DirectMatch
  | _, [] => []
  | 0, _ :: _ => []
  | fuel + 1, c :: rest =>
    if isWordChar c then
      match (rest.dropWhile isWordChar).dropWhile isPySpace with
      | '(' :: rest2 =>
        ⟨⟨c :: rest.takeWhile isWordChar⟩,
         ⟨(c :: rest.takeWhile isWordChar) ++
           (rest.dropWhile isWordChar).takeWhile isPySpace ++ ['(']⟩⟩ ::
          findDirectGo fuel rest2
      | _ => findDirectGo fuel rest
    else findDirectGo fuel rest

/-- The scan over the whole body; each step consumes at least one
character, so fuel `cs.length` never runs out. -/
def findDirect (cs : List Char) : List DirectMatch := findDirectGo cs.length cs

/-- The registry scan of the direct-function branch (perform_perl_parser.py
lines 345-359): walk `global_functions.items()` in insertion order and stop
at the first entry whose bare method name equals the matched identifier AND
whose owning file differs from the caller's file. -/
def resolveDirect (reg : List (String × FuncInfo)) (callerFile funcCall : String) :
    Option (String × FuncInfo) :=
  reg.find? (fun e => e.2.method_name == funcCall && e.2.file != callerFile)

/-- The `CrossFileCall` appended for a resolved direct-function match
(perform_perl_parser.py lines 347-358). -/
def mkDirectCall (callerFile callerPackage : String) (callerMethod : Option String)
    (pat : String) (e : String × FuncInfo) : CrossFileCall :=
  ⟨callerFile, callerPackage, callerMethod, e.2.file, e.2.package,
   e.2.method_name, e.1, pat, "direct_function"⟩

/-- All calls the direct-function pattern contributes for one body
(perform_perl_parser.py lines 285, 289-292, 344-359). -/
def directFunctionCallsInCode (code : String) (reg : List (String × FuncInfo))
    (callerFile callerPackage : String) (callerMethod : Option String) :
    List CrossFileCall :=
  (findDirect code.data).filterMap
    (fun m => (resolveDirect reg callerFile m.ident).map
      (mkDirectCall callerFile callerPackage callerMethod m.pattern))

/-- Follows the words of claim C2, not the source: the candidate of a
direct-function match is the first registry entry in insertion order whose
bare definition name equals the identifier, and an edge is emitted only
when that candidate's owning file differs from the caller's file; a match
whose candidate is in the caller's own file is discarded. -/
def resolveDirectClaim (reg : List (String × FuncInfo)) (callerFile funcCall : String) :
    Option (String × FuncInfo) :=
  match reg.find? (fun e => e.2.method_name == funcCall) with
  | some e => if e.2.file != callerFile then some e else none
  | none => none

/-- The per-body direct-function edges under claim C2's candidate policy. -/
def directFunctionCallsClaim (code : String) (reg : List (String × FuncInfo))
    (callerFile callerPackage : String) (callerMethod : Option String) :
    List CrossFileCall :=
  (findDirect code.data).filterMap
    (fun m => (resolveDirectClaim reg callerFile m.ident).map
      (mkDirectCall callerFile callerPackage callerMethod m.pattern))

/-! ## Graph transformer: `neo4j_writer.py`

`Neo4jWriter._transform_perl_ast` turns the project AST into generic nodes
and relationships; only the pure transformation (no driver I/O) is
modelled.  Property values are Python scalars; JSON-encoded lists
(`json.dumps(...)`) are modelled by an explicit JSON rendering so property
dictionaries stay string-valued where the source stores strings.
-/

/-- A property value: Python `str`, `bool`, `int`, or `None`. -/
inductive PVal where
  | s (v : String)
  | b (v : Bool)
  | n (v : Nat)
  | nullv
deriving DecidableEq, Repr

/-- `json.dumps` of a plain string (escaping the characters these sources
can produce). -/
def jsonStr (s : String) : String :=
  ⟨'"' :: s.data.flatMap (fun c =>
    if c = '"' then ['\\', '"']
    else if c = '\\' then ['\\', '\\']
    else if c = '\n' then ['\\', 'n']
    else if c = '\t' then ['\\', 't']
    else [c]) ++ ['"']⟩

/-- `json.dumps` of a list of strings (default separator `", "`). -/
def jsonList (l : List String) : String :=
  "[" ++ ⟨(((l.map jsonStr).intersperse ", ").map String.data).flatten⟩ ++ "]"

/-- `Neo4jWriter._normalize_id` (neo4j_writer.py lines 72-74): the single
characters `/`, `.`, space and backslash become `_`, then every `::`
becomes `_`. -/
def normSingle (c : Char) : Char :=
  if c = '/' || c = '.' || c = ' ' || c = '\\' then '_' else c

def replaceColons : List Char → List Char
  | ':' :: ':' :: rest => '_' :: replaceColons rest
  | c :: rest => c :: replaceColons rest
  | [] => []

def normalize_id (s : String) : String := ⟨replaceColons (s.data.map normSingle)⟩

/-- `Neo4jWriter._extract_filename` (neo4j_writer.py lines 66-70):
`os.path.basename` then `os.path.splitext(...)[0]`. -/
def lastPathSeg : List Char → List Char → List Char
  | _acc, '/' :: rest => lastPathSeg [] rest
  | acc, c :: rest => lastPathSeg (acc ++ [c]) rest
  | acc, [] => acc

def splitextBase (cs : List Char) : List Char :=
  match cs.reverse.findIdx? (· = '.') with
  | none => cs
  | some rj =>
    let i := cs.length - 1 - rj
    if (cs.take i).all (· = '.') then cs else cs.take i

def extract_filename (p : String) : String := ⟨splitextBase (lastPathSeg [] p.data)⟩

/-- The string case of `Neo4jWriter._clean_value` (neo4j_writer.py lines
53-55); every value it is applied to inside `_transform_perl_ast` is a
string body. -/
def clean_value_str (s : String) : String :=
  if 5000 < s.data.length then ⟨s.data.take 5000⟩ else s

/-- A transformed graph node (id, label, display name, properties). -/
structure GNode where
  id : String
  ntype : String
  name : String
  properties : List (String × PVal)
deriving DecidableEq, Repr

/-- A transformed graph relationship. -/
structure GRel where
  from_id : String
  to_id : String
  rtype : String
  properties : List (String × PVal)
deriving DecidableEq, Repr

/-- The aggregation key `(rel['from_id'], rel['to_id'], rel['type'])`
(neo4j_writer.py line 335). -/
def aggKey (r : GRel) : String × String × String := (r.from_id, r.to_id, r.rtype)

/-- The per-key accumulator of `aggregate_relationships` (neo4j_writer.py
lines 327-332); `call_patterns`/`call_types` are Python sets, modelled as
insertion-ordered duplicate-free lists (the values stored at those property
keys are always strings in this pipeline). -/
structure AggData where
  count : Nat
  properties : List (String × PVal)
  call_patterns : List String
  call_types : List String
deriving DecidableEq, Repr

def aggInit : AggData := ⟨0, [], [], []⟩

/-- The loop body of `aggregate_relationships` (neo4j_writer.py lines
334-345) applied to one relationship's data. -/
def aggUpdate (d : AggData) (rel : GRel) : AggData :=
  let d := { d with count := d.count + 1 }
  let d := if d.properties.isEmpty then { d with properties := rel.properties } else d
  let d :=
    match lookupD rel.properties "call_pattern" with
    | some (.s p) => { d with call_patterns := setAdd d.call_patterns p }
    | _ => d
  match lookupD rel.properties "call_type" with
  | some (.s t) => { d with call_types := setAdd d.call_types t }
  | _ => d

/-- Dictionary update on the aggregation map (Python `defaultdict`). -/
def aggStep (acc : List ((String × String × String) × AggData)) (rel : GRel) :
    List ((String × String × String) × AggData) :=
  dictInsert acc (aggKey rel)
    (aggUpdate ((lookupD acc (aggKey rel)).getD aggInit) rel)

/-- `Neo4jWriter.aggregate_relationships` (neo4j_writer.py lines 325-366):
group by `(from_id, to_id, type)`, count occurrences, keep the first
non-empty property dictionary, collect the observed `call_pattern` and
`call_type` values as sets, then emit exactly one relationship per key with
`call_count` and, when non-empty, the JSON-encoded pattern/type sets and a
representative `call_type`. -/
def aggregate_relationships (rels : List GRel) : List GRel :=
  (rels.foldl aggStep []).map (fun kd =>
    let props := dictInsert kd.2.properties "call_count" (.n kd.2.count)
    let props :=
      if kd.2.call_patterns.isEmpty then props
      else dictInsert props "call_patterns" (.s (jsonList kd.2.call_patterns))
    let props :=
      match kd.2.call_types with
      | [] => props
      | t :: _ =>
        dictInsert (dictInsert props "call_types" (.s (jsonList kd.2.call_types)))
          "call_type" (.s t)
    ⟨kd.1.1, kd.1.2.1, kd.1.2.2, props⟩)

/-! ### `_transform_perl_ast` -/

/-- `Neo4jWriter._generate_method_caller_id` (neo4j_writer.py lines
303-314): a call site inside a named definition maps to that method's id;
otherwise the synthetic per-scope script id is used (Python treats both a
missing and an empty `caller_method` as falsy). -/
def generate_method_caller_id (call : CrossFileCall) : String :=
  let caller_file := normalize_id call.caller_file
  let caller_package := normalize_id call.caller_package
  if (call.caller_method.getD "").data.isEmpty then
    "script_" ++ ("package_file_" ++ caller_file ++ "_" ++ caller_package)
  else
    let caller_method :=
      normalize_id ⟨lastColonSeg [] (call.caller_method.getD "").data⟩
    "method_" ++ ("package_file_" ++ caller_file ++ "_" ++ caller_package) ++
      "_" ++ caller_method

/-- `Neo4jWriter._generate_method_target_id` (neo4j_writer.py lines
316-323). -/
def generate_method_target_id (call : CrossFileCall) : String :=
  "method_" ++
    ("package_file_" ++ normalize_id call.target_file ++ "_" ++
      normalize_id call.target_package) ++
    "_" ++ normalize_id call.target_method

/-- The `CALLS_METHOD` relationship appended for one cross-file call
(neo4j_writer.py lines 276-293). -/
def callRel (call : CrossFileCall) : GRel :=
  ⟨generate_method_caller_id call, generate_method_target_id call, "CALLS_METHOD",
   [("call_type", .s call.call_type), ("call_pattern", .s call.call_pattern),
    ("caller_file", .s call.caller_file), ("target_file", .s call.target_file),
    ("caller_package", .s call.caller_package),
    ("target_package", .s call.target_package),
    ("is_cross_file", .b true)]⟩

/-- A `USE_STATEMENT` node and its `USES_MODULE` relationship
(neo4j_writer.py lines 110-129 and 173-193); both the file-level and the
package-level variants share this shape, with `owner_id` the containing
node's id. -/
def useNodeRel (owner_id : String) (u : UseStmt) : GNode × GRel :=
  let use_id := "use_" ++ normalize_id u.module ++ "_" ++ owner_id
  (⟨use_id, "USE_STATEMENT", u.module,
    [("module", .s u.module), ("source_file", .s u.source_file),
     ("type", .s "UseStatement")]⟩,
   ⟨owner_id, use_id, "USES_MODULE", []⟩)

/-- A `METHOD` node (neo4j_writer.py lines 196-234). -/
def methodNode (package_id pkg_source _pkg_name : String) (m : SubDef) : GNode :=
  let method_id := "method_" ++ package_id ++ "_" ++ normalize_id m.name
  let props :=
    [("name", .s m.name), ("full_name", .s m.full_name),
     ("package", match m.package with | some p => .s p | none => PVal.nullv),
     ("type", .s "SubDefinition"), ("source_file", .s pkg_source)]
  let props := props ++
    (if m.parameters.isEmpty then
      [("parameters", PVal.s "[]"), ("parameter_count", PVal.n 0)]
     else
      [("parameters", PVal.s (jsonList m.parameters)),
       ("parameter_count", PVal.n m.parameters.length)])
  let props := props ++
    (if m.body.data.isEmpty then
      [("body", PVal.s ""), ("body_length", PVal.n 0), ("has_body", PVal.b false)]
     else
      [("body", PVal.s (clean_value_str m.body)),
       ("body_length", PVal.n m.body.data.length), ("has_body", PVal.b true)])
  ⟨method_id, "METHOD", m.name, props⟩

/-- A `PACKAGE` subtree: package node, its use statements, its methods and
its optional script-execution node, with their relationships
(neo4j_writer.py lines 132-273). -/
def transformPackage (file_id : String) (pkg : PackageDecl) : List GNode × List GRel :=
  let package_id := "package_" ++ file_id ++ "_" ++ normalize_id pkg.name
  let props := [("name", .s pkg.name), ("source_file", .s pkg.source_file),
                ("type", .s "PackageDeclaration")]
  let props := props ++
    (if pkg.methods.isEmpty then [("method_count", PVal.n 0)]
     else
      [("method_names", PVal.s (jsonList (pkg.methods.map (fun m => m.name)))),
       ("method_count", PVal.n pkg.methods.length)])
  let props := props ++
    (match pkg.script_execution with
     | some se =>
       [("has_script_execution", PVal.b true)] ++
         (if se.body.data.isEmpty then []
          else [("script_body", PVal.s (clean_value_str se.body))])
     | none => [("has_script_execution", PVal.b false)])
  let useNR := pkg.use_statements.map (useNodeRel package_id)
  let methodNodes := pkg.methods.map (methodNode package_id pkg.source_file pkg.name)
  let methodRels := pkg.methods.map (fun m =>
    GRel.mk package_id ("method_" ++ package_id ++ "_" ++ normalize_id m.name)
      "HAS_METHOD" [])
  let scriptNR : List GNode × List GRel :=
    match pkg.script_execution with
    | some se =>
      let script_id := "script_" ++ package_id
      ([⟨script_id, "SCRIPT_EXECUTION", "script_" ++ pkg.name,
         [("type", .s "ScriptExecution"), ("source_file", .s se.source_file),
          ("name", .s ("script_" ++ pkg.name))] ++
           (if se.body.data.isEmpty then
             [("body", PVal.s ""), ("body_length", PVal.n 0)]
            else
             [("body", PVal.s (clean_value_str se.body)),
              ("body_length", PVal.n se.body.data.length)])⟩],
       [⟨package_id, script_id, "HAS_SCRIPT", []⟩])
    | none => ([], [])
  (⟨package_id, "PACKAGE", pkg.name, props⟩ ::
     (useNR.map Prod.fst ++ methodNodes ++ scriptNR.1),
   ⟨file_id, package_id, "CONTAINS_PACKAGE", []⟩ ::
     (useNR.map Prod.snd ++ methodRels ++ scriptNR.2))

/-- The per-file subtree of `_transform_perl_ast` (neo4j_writer.py lines
82-273). -/
def transformFile (f : PerlFileAST) : List GNode × List GRel :=
  let file_id := "file_" ++ normalize_id f.source_file
  let file_name := extract_filename f.source_file
  let props := [("source_file", .s f.source_file), ("file_type", .s "PerlFile"),
                ("name", .s file_name)]
  let props := props ++
    (match f.global_scope with
     | some gs =>
       [("has_global_scope", PVal.b true)] ++
         (if gs.body.data.isEmpty then []
          else [("global_scope_body", PVal.s (clean_value_str gs.body))])
     | none => [("has_global_scope", PVal.b false)])
  let useNR := f.use_statements.map (useNodeRel file_id)
  let pkgParts := f.packages.map (transformPackage file_id)
  (⟨file_id, "FILE", file_name, props⟩ ::
     (useNR.map Prod.fst ++ (pkgParts.map Prod.fst).flatten),
   useNR.map Prod.snd ++ (pkgParts.map Prod.snd).flatten)

/-- The project AST slice `_transform_perl_ast` reads: the per-file trees
and the cross-file call list. -/
structure ProjectAST where
  files : List PerlFileAST
  cross_file_calls : List CrossFileCall
deriving DecidableEq, Repr

/-- `Neo4jWriter._transform_perl_ast` (neo4j_writer.py lines 76-301):
all per-file nodes and relationships, the cross-file call relationships,
then aggregation of the relationship list. -/
def transform_perl_ast (ast : ProjectAST) : List GNode × List GRel :=
  let parts := ast.files.map transformFile
  let nodes := (parts.map Prod.fst).flatten
  let rels := (parts.map Prod.snd).flatten ++ ast.cross_file_calls.map callRel
  (nodes, aggregate_relationships rels)

/-! ## Dictionary lemmas -/

theorem lookupD_dictInsert {κ α : Type} [DecidableEq κ]
    (d : List (κ × α)) (k k' : κ) (v : α) :
    lookupD (dictInsert d k v) k' = if k = k' then some v else lookupD d k' := by
  induction d with
  | nil =>
    by_cases h : k = k' <;> simp [dictInsert, lookupD, h]
  | cons kv rest ih =>
    obtain ⟨k₀, v₀⟩ := kv
    by_cases h0 : k₀ = k
    · subst h0
      by_cases h1 : k₀ = k' <;> simp [dictInsert, lookupD, h1]
    · by_cases h1 : k₀ = k'
      · subst h1
        have : ¬ k = k₀ := fun hh => h0 hh.symm
        simp [dictInsert, lookupD, h0, this]
      · simp [dictInsert, lookupD, h0, h1, ih]

/-- Folding dictionary assignments: the last assignment to a key wins, the
initial dictionary answers otherwise. -/
theorem lookupD_foldl_dictInsert {κ α : Type} [DecidableEq κ]
    (l : List (κ × α)) (d : List (κ × α)) (k : κ) :
    lookupD (l.foldl (fun d kv => dictInsert d kv.1 kv.2) d) k =
      Option.or (((l.filter (fun kv => kv.1 = k)).getLast?).map Prod.snd)
        (lookupD d k) := by
  induction l using List.reverseRecOn generalizing d with
  | nil => simp [List.filter]
  | append_singleton l' kv ih =>
    rw [List.foldl_append]
    simp only [List.foldl_cons, List.foldl_nil]
    rw [lookupD_dictInsert, List.filter_append]
    by_cases h : kv.1 = k
    · simp [List.filter, h]
    · simp [List.filter, h, ih]

/-! ## Registry structure lemmas -/

theorem registry_foldl_methods (f : PerlFileAST) (p : PackageDecl)
    (ms : List SubDef) (reg : List (String × FuncInfo)) :
    ms.foldl (fun reg m => dictInsert reg m.full_name (funcInfoOf f p m)) reg =
      (ms.map (fun m => (m.full_name, funcInfoOf f p m))).foldl
        (fun d kv => dictInsert d kv.1 kv.2) reg := by
  induction ms generalizing reg with
  | nil => rfl
  | cons m ms ih => simp [List.foldl_cons, ih]

theorem registry_foldl_packages (f : PerlFileAST) (ps : List PackageDecl)
    (reg : List (String × FuncInfo)) :
    ps.foldl
        (fun reg p =>
          p.methods.foldl (fun reg m => dictInsert reg m.full_name (funcInfoOf f p m)) reg)
        reg =
      (ps.flatMap (fun p => p.methods.map (fun m => (m.full_name, funcInfoOf f p m)))).foldl
        (fun d kv => dictInsert d kv.1 kv.2) reg := by
  induction ps generalizing reg with
  | nil => rfl
  | cons p ps ih =>
    rw [List.foldl_cons, List.flatMap_cons, List.foldl_append, ih,
      registry_foldl_methods]

theorem registry_eq_foldl_declPairs (files : List PerlFileAST) :
    global_function_registry files =
      (files.flatMap declPairs).foldl (fun d kv => dictInsert d kv.1 kv.2) [] := by
  suffices h : ∀ (fs : List PerlFileAST) (reg : List (String × FuncInfo)),
      fs.foldl
          (fun reg f =>
            f.packages.foldl
              (fun reg p =>
                p.methods.foldl
                  (fun reg m => dictInsert reg m.full_name (funcInfoOf f p m)) reg)
              reg)
          reg =
        (fs.flatMap declPairs).foldl (fun d kv => dictInsert d kv.1 kv.2) reg by
    exact h files []
  intro fs
  induction fs with
  | nil => intro reg; rfl
  | cons f fs ih =>
    intro reg
    rw [List.foldl_cons, List.flatMap_cons, List.foldl_append, ih,
      registry_foldl_packages]
    rfl

/-- The assignments a file contributes for one qualified name, in order. -/
def declsFor (f : PerlFileAST) (q : String) : List FuncInfo :=
  ((declPairs f).filter (fun kv => kv.1 = q)).map Prod.snd

/-- C1 (amended): last write wins with no conflict output.  When the
last-processed file declares a qualified name, the registry entry for that
name is exactly the last assignment that file makes to it; the
registry-building pass produces no record of the overwritten earlier
entries. -/
theorem registry_last_write_wins (fs : List PerlFileAST) (B : PerlFileAST)
    (qname : String) (h : declsFor B qname ≠ []) :
    lookupD (global_function_registry (fs ++ [B])) qname =
      (declsFor B qname).getLast? := by
  rw [registry_eq_foldl_declPairs, lookupD_foldl_dictInsert]
  rw [List.flatMap_append, List.filter_append]
  have hB : (declPairs B).filter (fun kv => kv.1 = qname) ≠ [] := by
    intro hc
    apply h
    simp [declsFor, hc]
  have hflat : ([B].flatMap declPairs).filter (fun kv => kv.1 = qname) =
      (declPairs B).filter (fun kv => kv.1 = qname) := by
    simp
  rw [hflat, List.getLast?_append_of_ne_nil _ hB]
  have : (declsFor B qname).getLast? =
      (((declPairs B).filter (fun kv => kv.1 = qname)).getLast?).map Prod.snd := by
    simp [declsFor, List.getLast?_map]
  rw [this]
  obtain ⟨x, hx⟩ := List.exists_mem_of_ne_nil _ hB
  cases hlast : ((declPairs B).filter (fun kv => kv.1 = qname)).getLast? with
  | none => exact absurd (List.getLast?_eq_none_iff.mp hlast) hB
  | some kv => simp [Option.or]

/-! ## Concrete inputs used by witnesses and counterexamples -/

/-- The AST of a file `a.pm` declaring `Foo::bar` (checked against the
parser in `registry_conflict_cex`). -/
def astFooA : PerlFileAST :=
  ⟨"a.pm", [],
   [⟨"Foo", [], [⟨"bar", [], "return 1;", some "Foo", "Foo::bar"⟩], none, "a.pm"⟩],
   none⟩

/-- The AST of a file `b.pm` also declaring `Foo::bar`. -/
def astFooB : PerlFileAST :=
  ⟨"b.pm", [],
   [⟨"Foo", [], [⟨"bar", [], "return 2;", some "Foo", "Foo::bar"⟩], none, "b.pm"⟩],
   none⟩

/-- C1, counterexample.  Files `a.pm` then `b.pm` (their ASTs are exactly
what `create_ast_from_file` yields on the shown sources) both declare
`Foo::bar`.  After the registry-building pass of `analyze_cross_file_calls`
the registry does point to `b.pm` — but its complete output for this input
is the single overwritten entry: no output of the pass mentions `a.pm` at
all, so no conflict record naming both files is produced anywhere; the
duplicate is silently ignored, which falsifies the claim's second half.
The last conjunct shows the conflict record that the specification's own
policy (modelled by `registry_conflicts_spec`) demands for this input. -/
theorem registry_conflict_cex :
    create_ast_from_file "a.pm"
        ["package Foo;\n", "sub bar \x7b\n", "return 1;\n", "\x7d\n"] = some astFooA
    ∧ create_ast_from_file "b.pm"
        ["package Foo;\n", "sub bar \x7b\n", "return 2;\n", "\x7d\n"] = some astFooB
    ∧ global_function_registry [astFooA, astFooB] =
        [("Foo::bar", ⟨"b.pm", "Foo", "bar", ["bar", "Foo::bar", "$obj->bar"]⟩)]
    ∧ registry_conflicts_spec [astFooA, astFooB] =
        [⟨"Foo::bar", "a.pm", "b.pm"⟩] := by
  refine ⟨by decide, by decide, by decide, by decide⟩

/-- Witness for `registry_last_write_wins` at the two concrete files. -/
theorem registry_last_write_wins_witness :
    declsFor astFooB "Foo::bar" ≠ [] ∧
    lookupD (global_function_registry ([astFooA] ++ [astFooB])) "Foo::bar" =
      (declsFor astFooB "Foo::bar").getLast? :=
  ⟨by decide, registry_last_write_wins [astFooA] astFooB "Foo::bar" (by decide)⟩

/-! ## C2: direct-function call resolution -/

/-- C2 (amended): the direct-function branch resolves a match to the first
registry entry, in registry insertion order, whose bare definition name
equals the identifier AND whose owning file differs from the caller's file;
same-file name matches are merely skipped by the scan, not grounds for
discarding the match.  Consequently every emitted direct-function edge is
cross-file. -/
theorem direct_candidate_policy (reg : List (String × FuncInfo)) (cf fc : String) :
    (∀ e, resolveDirect reg cf fc = some e ↔
      (e.2.method_name = fc ∧ e.2.file ≠ cf)
        ∧ ∃ l1 l2, reg = l1 ++ e :: l2
            ∧ ∀ x ∈ l1, ¬ (x.2.method_name = fc ∧ x.2.file ≠ cf))
    ∧ (∀ code cp cm c, c ∈ directFunctionCallsInCode code reg cf cp cm →
        c.target_file ≠ cf) := by
  constructor
  · intro e
    rw [resolveDirect, List.find?_eq_some]
    constructor
    · rintro ⟨hp, l1, l2, hsplit, hprev⟩
      refine ⟨?_, l1, l2, hsplit, ?_⟩
      · simpa [Bool.and_eq_true, beq_iff_eq, bne_iff_ne] using hp
      · intro x hx hcontra
        have := hprev x hx
        simp [Bool.and_eq_true, beq_iff_eq, bne_iff_ne] at this
        rcases this with h1 | h2
        · exact h1 hcontra.1
        · exact hcontra.2 h2
    · rintro ⟨⟨hn, hf⟩, l1, l2, hsplit, hprev⟩
      refine ⟨by simp [Bool.and_eq_true, beq_iff_eq, bne_iff_ne, hn, hf], l1, l2,
        hsplit, ?_⟩
      intro x hx
      have := hprev x hx
      simp only [not_and, ne_eq, not_not] at this
      by_cases hxn : x.2.method_name = fc
      · simp [Bool.and_eq_true, beq_iff_eq, bne_iff_ne, hxn, this hxn]
      · simp [Bool.and_eq_true, beq_iff_eq, hxn]
  · intro code cp cm c hc
    rw [directFunctionCallsInCode, List.mem_filterMap] at hc
    obtain ⟨m, _, hm⟩ := hc
    rw [Option.map_eq_some'] at hm
    obtain ⟨e, he, hmk⟩ := hm
    have := List.find?_some he
    simp only [Bool.and_eq_true, beq_iff_eq, bne_iff_ne] at this
    subst hmk
    exact this.2

/-- A two-entry registry on which the code's policy and the claim's policy
disagree: the first name match for `foo` lives in the caller's own file
`a.pl`, the second in `b.pl`. -/
def regTwoFoo : List (String × FuncInfo) :=
  [("P1::foo", ⟨"a.pl", "P1", "foo", ["foo", "P1::foo", "$obj->foo"]⟩),
   ("P2::foo", ⟨"b.pl", "P2", "foo", ["foo", "P2::foo", "$obj->foo"]⟩)]

/-- C2, counterexample.  In the body `foo();` scanned for caller file
`a.pl`, the first registry entry whose bare name is `foo` is `P1::foo`,
which lives in the caller's own file — by the claim this match is discarded
and no edge is emitted (`directFunctionCallsClaim` computes exactly the
claim's policy and returns `[]`).  The code instead skips the same-file
entry and emits an edge to `P2::foo` in `b.pl`. -/
theorem direct_candidate_cex :
    directFunctionCallsInCode "foo();" regTwoFoo "a.pl" "global" none =
      [⟨"a.pl", "global", none, "b.pl", "P2", "foo", "P2::foo", "foo(",
        "direct_function"⟩]
    ∧ directFunctionCallsClaim "foo();" regTwoFoo "a.pl" "global" none = [] := by
  refine ⟨by decide, by decide⟩

/-- Witness for `direct_candidate_policy` at the concrete registry. -/
theorem direct_candidate_policy_witness :
    (resolveDirect regTwoFoo "a.pl" "foo" =
        some ("P2::foo", ⟨"b.pl", "P2", "foo", ["foo", "P2::foo", "$obj->foo"]⟩))
    ∧ (⟨"a.pl", "global", none, "b.pl", "P2", "foo", "P2::foo", "foo(",
          "direct_function"⟩ ∈
        directFunctionCallsInCode "foo();" regTwoFoo "a.pl" "global" none →
       ("b.pl" : String) ≠ "a.pl") := by
  constructor
  · have h := (direct_candidate_policy regTwoFoo "a.pl" "foo").1
      ("P2::foo", ⟨"b.pl", "P2", "foo", ["foo", "P2::foo", "$obj->foo"]⟩)
    refine h.mpr ⟨⟨rfl, by decide⟩,
      [("P1::foo", ⟨"a.pl", "P1", "foo", ["foo", "P1::foo", "$obj->foo"]⟩)], [],
      by decide, ?_⟩
    intro x hx
    have : x = ("P1::foo",
        FuncInfo.mk "a.pl" "P1" "foo" ["foo", "P1::foo", "$obj->foo"]) := by
      simpa using hx
    subst this
    decide
  · intro hmem
    exact (direct_candidate_policy regTwoFoo "a.pl" "foo").2 "foo();" "global" none _
      hmem

/-! ## C3: aggregation lemmas -/

theorem mem_setAdd (l : List String) (x y : String) :
    y ∈ setAdd l x ↔ y ∈ l ∨ y = x := by
  unfold setAdd
  by_cases h : x ∈ l
  · rw [if_pos h]
    constructor
    · exact Or.inl
    · rintro (hy | rfl)
      · exact hy
      · exact h
  · rw [if_neg h]
    simp

theorem nodup_setAdd (l : List String) (x : String) (h : l.Nodup) :
    (setAdd l x).Nodup := by
  unfold setAdd
  by_cases hx : x ∈ l
  · rwa [if_pos hx]
  · rw [if_neg hx]
    simp only [List.nodup_append, List.nodup_cons, List.not_mem_nil, not_false_iff,
      List.nodup_nil, and_true, true_and, List.disjoint_singleton]
    exact ⟨h, hx⟩

/-- The effect of one raw relationship on the observed pattern set
(neo4j_writer.py lines 341-343). -/
def patStep (acc : List String) (rel : GRel) : List String :=
  match lookupD rel.properties "call_pattern" with
  | some (.s p) => setAdd acc p
  | _ => acc

/-- The effect of one raw relationship on the observed kind set
(neo4j_writer.py lines 344-345). -/
def typStep (acc : List String) (rel : GRel) : List String :=
  match lookupD rel.properties "call_type" with
  | some (.s t) => setAdd acc t
  | _ => acc

/-- The deduplicated `call_pattern` values observed across a relationship
list, in first-occurrence order. -/
def observedPatterns (rels : List GRel) : List String := rels.foldl patStep []

/-- The deduplicated `call_type` values observed across a relationship
list, in first-occurrence order. -/
def observedTypes (rels : List GRel) : List String := rels.foldl typStep []

theorem aggUpdate_count (d : AggData) (rel : GRel) :
    (aggUpdate d rel).count = d.count + 1 := by
  unfold aggUpdate
  by_cases hp : d.properties.isEmpty <;>
    (repeat' split) <;> simp [hp]

theorem aggUpdate_patterns (d : AggData) (rel : GRel) :
    (aggUpdate d rel).call_patterns = patStep d.call_patterns rel := by
  unfold aggUpdate patStep
  by_cases hp : d.properties.isEmpty <;>
    (repeat' split) <;> simp_all [hp]

theorem aggUpdate_types (d : AggData) (rel : GRel) :
    (aggUpdate d rel).call_types = typStep d.call_types rel := by
  unfold aggUpdate typStep
  by_cases hp : d.properties.isEmpty <;>
    (repeat' split) <;> simp_all [hp]

theorem foldl_aggUpdate_count (l : List GRel) (d : AggData) :
    (l.foldl aggUpdate d).count = d.count + l.length := by
  induction l generalizing d with
  | nil => simp
  | cons r rs ih => simp [List.foldl_cons, ih, aggUpdate_count]; omega

theorem foldl_aggUpdate_patterns (l : List GRel) (d : AggData) :
    (l.foldl aggUpdate d).call_patterns = l.foldl patStep d.call_patterns := by
  induction l generalizing d with
  | nil => simp
  | cons r rs ih => simp [List.foldl_cons, ih, aggUpdate_patterns]

theorem foldl_aggUpdate_types (l : List GRel) (d : AggData) :
    (l.foldl aggUpdate d).call_types = l.foldl typStep d.call_types := by
  induction l generalizing d with
  | nil => simp
  | cons r rs ih => simp [List.foldl_cons, ih, aggUpdate_types]

theorem mem_foldl_patStep (l : List GRel) (acc : List String) (p : String) :
    p ∈ l.foldl patStep acc ↔
      p ∈ acc ∨ ∃ x ∈ l, lookupD x.properties "call_pattern" = some (.s p) := by
  induction l generalizing acc with
  | nil => simp
  | cons r rs ih =>
    rw [List.foldl_cons, ih]
    cases hl : lookupD r.properties "call_pattern" with
    | none => simp [patStep, hl]
    | some v =>
      cases v with
      | s q =>
        simp only [patStep, hl, mem_setAdd, List.mem_cons]
        constructor
        · rintro ((hp | rfl) | hrest)
          · exact Or.inl hp
          · exact Or.inr ⟨r, Or.inl rfl, hl⟩
          · obtain ⟨x, hx, hxl⟩ := hrest
            exact Or.inr ⟨x, Or.inr hx, hxl⟩
        · rintro (hp | ⟨x, hx | hx, hxl⟩)
          · exact Or.inl (Or.inl hp)
          · subst hx
            rw [hl] at hxl
            cases hxl
            exact Or.inl (Or.inr rfl)
          · exact Or.inr ⟨x, hx, hxl⟩
      | b v => simp [patStep, hl]
      | n v => simp [patStep, hl]
      | nullv => simp [patStep, hl]

theorem mem_foldl_typStep (l : List GRel) (acc : List String) (p : String) :
    p ∈ l.foldl typStep acc ↔
      p ∈ acc ∨ ∃ x ∈ l, lookupD x.properties "call_type" = some (.s p) := by
  induction l generalizing acc with
  | nil => simp
  | cons r rs ih =>
    rw [List.foldl_cons, ih]
    cases hl : lookupD r.properties "call_type" with
    | none => simp [typStep, hl]
    | some v =>
      cases v with
      | s q =>
        simp only [typStep, hl, mem_setAdd, List.mem_cons]
        constructor
        · rintro ((hp | rfl) | hrest)
          · exact Or.inl hp
          · exact Or.inr ⟨r, Or.inl rfl, hl⟩
          · obtain ⟨x, hx, hxl⟩ := hrest
            exact Or.inr ⟨x, Or.inr hx, hxl⟩
        · rintro (hp | ⟨x, hx | hx, hxl⟩)
          · exact Or.inl (Or.inl hp)
          · subst hx
            rw [hl] at hxl
            cases hxl
            exact Or.inl (Or.inr rfl)
          · exact Or.inr ⟨x, hx, hxl⟩
      | b v => simp [typStep, hl]
      | n v => simp [typStep, hl]
      | nullv => simp [typStep, hl]

theorem nodup_foldl_patStep (l : List GRel) (acc : List String) (h : acc.Nodup) :
    (l.foldl patStep acc).Nodup := by
  induction l generalizing acc with
  | nil => simpa
  | cons r rs ih =>
    rw [List.foldl_cons]
    apply ih
    unfold patStep
    cases lookupD r.properties "call_pattern" with
    | none => exact h
    | some v => cases v <;> first | exact nodup_setAdd _ _ h | exact h

theorem nodup_foldl_typStep (l : List GRel) (acc : List String) (h : acc.Nodup) :
    (l.foldl typStep acc).Nodup := by
  induction l generalizing acc with
  | nil => simpa
  | cons r rs ih =>
    rw [List.foldl_cons]
    apply ih
    unfold typStep
    cases lookupD r.properties "call_type" with
    | none => exact h
    | some v => cases v <;> first | exact nodup_setAdd _ _ h | exact h

theorem lookupD_foldl_aggStep (rels : List GRel)
    (acc : List ((String × String × String) × AggData)) (k : String × String × String) :
    lookupD (rels.foldl aggStep acc) k =
      if rels.filter (fun r => aggKey r = k) = [] then lookupD acc k
      else some ((rels.filter (fun r => aggKey r = k)).foldl aggUpdate
        ((lookupD acc k).getD aggInit)) := by
  induction rels generalizing acc with
  | nil => simp
  | cons r rs ih =>
    rw [List.foldl_cons, ih (aggStep acc r)]
    have hstep : ∀ k', lookupD (aggStep acc r) k' =
        if aggKey r = k' then
          some (aggUpdate ((lookupD acc (aggKey r)).getD aggInit) r)
        else lookupD acc k' := by
      intro k'
      rw [aggStep, lookupD_dictInsert]
    by_cases hk : aggKey r = k
    · subst hk
      rw [List.filter_cons_of_pos (by simp)]
      by_cases he : rs.filter (fun x => aggKey x = aggKey r) = []
      · rw [if_pos he, hstep, if_pos rfl, if_neg (List.cons_ne_nil _ _), he]
        simp
      · rw [if_neg he, if_neg (List.cons_ne_nil _ _), hstep, if_pos rfl]
        simp [List.foldl_cons]
    · rw [List.filter_cons_of_neg (by simp [hk]), hstep, if_neg hk]

theorem lookupD_isSome_iff {κ α : Type} [DecidableEq κ] (d : List (κ × α)) (k : κ) :
    (lookupD d k).isSome ↔ k ∈ d.map Prod.fst := by
  induction d with
  | nil => simp [lookupD]
  | cons kv rest ih =>
    obtain ⟨k₀, v₀⟩ := kv
    by_cases h : k₀ = k
    · simp [lookupD, h]
    · have h' : ¬ k = k₀ := fun hh => h hh.symm
      simp [lookupD, h, h', ih]

theorem dictInsert_map_fst {κ α : Type} [DecidableEq κ] (d : List (κ × α)) (k : κ) (v : α) :
    (dictInsert d k v).map Prod.fst =
      if k ∈ d.map Prod.fst then d.map Prod.fst else d.map Prod.fst ++ [k] := by
  induction d with
  | nil => simp [dictInsert]
  | cons kv rest ih =>
    obtain ⟨k₀, v₀⟩ := kv
    by_cases h : k₀ = k
    · subst h
      simp [dictInsert]
    · have h' : ¬ k = k₀ := fun hh => h hh.symm
      by_cases hm : k ∈ rest.map Prod.fst <;>
        simp [dictInsert, h, h', hm, ih]

theorem nodup_dictInsert_keys {κ α : Type} [DecidableEq κ] (d : List (κ × α)) (k : κ)
    (v : α) (h : (d.map Prod.fst).Nodup) : ((dictInsert d k v).map Prod.fst).Nodup := by
  rw [dictInsert_map_fst]
  by_cases hm : k ∈ d.map Prod.fst
  · simpa [hm] using h
  · rw [if_neg hm]
    simp only [List.nodup_append, List.nodup_cons, List.not_mem_nil, not_false_iff,
      List.nodup_nil, and_true, true_and, List.disjoint_singleton]
    exact ⟨h, hm⟩

theorem nodup_foldl_aggStep_keys (rels : List GRel)
    (acc : List ((String × String × String) × AggData))
    (h : (acc.map Prod.fst).Nodup) :
    ((rels.foldl aggStep acc).map Prod.fst).Nodup := by
  induction rels generalizing acc with
  | nil => simpa
  | cons r rs ih =>
    rw [List.foldl_cons]
    exact ih _ (nodup_dictInsert_keys _ _ _ h)

theorem lookupD_of_mem_nodup {κ α : Type} [DecidableEq κ] (d : List (κ × α)) (k : κ)
    (v : α) (hnd : (d.map Prod.fst).Nodup) (hm : (k, v) ∈ d) :
    lookupD d k = some v := by
  induction d with
  | nil => simp at hm
  | cons kv rest ih =>
    obtain ⟨k₀, v₀⟩ := kv
    simp only [List.map_cons, List.nodup_cons] at hnd
    rcases List.mem_cons.mp hm with h | h
    · have h1 : k = k₀ := (Prod.ext_iff.mp h).1
      have h2 : v = v₀ := (Prod.ext_iff.mp h).2
      subst h1
      subst h2
      simp [lookupD]
    · have hk : ¬ k₀ = k := by
        intro he
        subst he
        exact hnd.1 (by simpa using List.mem_map_of_mem Prod.fst h)
      simp [lookupD, hk, ih hnd.2 h]

theorem aggregate_relationships_map_aggKey (rels : List GRel) :
    (aggregate_relationships rels).map aggKey =
      (rels.foldl aggStep []).map Prod.fst := by
  rw [aggregate_relationships, List.map_map]
  apply List.map_congr_left
  intro kd _
  rcases kd with ⟨⟨a, b, c⟩, d⟩
  rfl

theorem mem_keys_foldl_aggStep (rels : List GRel) (k : String × String × String) :
    k ∈ (rels.foldl aggStep []).map Prod.fst ↔ k ∈ rels.map aggKey := by
  rw [← lookupD_isSome_iff, lookupD_foldl_aggStep]
  by_cases he : rels.filter (fun r => aggKey r = k) = []
  · rw [if_pos he]
    rw [List.filter_eq_nil_iff] at he
    simp only [lookupD, Option.isSome_none, List.mem_map]
    constructor
    · intro hc
      simp at hc
    · rintro ⟨r, hr, rfl⟩
      exact absurd (by simp) (he r hr)
  · rw [if_neg he]
    simp only [Option.isSome_some, true_iff]
    obtain ⟨r, hr⟩ := List.exists_mem_of_ne_nil _ he
    rw [List.mem_filter] at hr
    exact List.mem_map.mpr ⟨r, hr.1, by simpa using hr.2⟩

/-- C3: aggregation invariant.  In the output of
`aggregate_relationships`, the `(from_id, to_id, type)` keys are pairwise
distinct and are exactly the keys of the raw input; each output
relationship's `call_count` property equals the number of raw
relationships sharing its key; and the observed `call_pattern` /
`call_type` values of those collapsed raw edges form duplicate-free sets,
characterized extensionally, whose JSON rendering is recorded in the
output properties whenever non-empty. -/
theorem aggregation_invariant (rels : List GRel) :
    ((aggregate_relationships rels).map aggKey).Nodup
    ∧ (∀ k, k ∈ (aggregate_relationships rels).map aggKey ↔ k ∈ rels.map aggKey)
    ∧ ∀ r ∈ aggregate_relationships rels,
        lookupD r.properties "call_count" =
          some (.n ((rels.filter (fun x => aggKey x = aggKey r)).length))
        ∧ (observedPatterns (rels.filter (fun x => aggKey x = aggKey r))).Nodup
        ∧ (∀ p, p ∈ observedPatterns (rels.filter (fun x => aggKey x = aggKey r)) ↔
            ∃ x ∈ rels, aggKey x = aggKey r ∧
              lookupD x.properties "call_pattern" = some (.s p))
        ∧ (observedPatterns (rels.filter (fun x => aggKey x = aggKey r)) ≠ [] →
            lookupD r.properties "call_patterns" =
              some (.s (jsonList (observedPatterns
                (rels.filter (fun x => aggKey x = aggKey r))))))
        ∧ (observedTypes (rels.filter (fun x => aggKey x = aggKey r))).Nodup
        ∧ (∀ t, t ∈ observedTypes (rels.filter (fun x => aggKey x = aggKey r)) ↔
            ∃ x ∈ rels, aggKey x = aggKey r ∧
              lookupD x.properties "call_type" = some (.s t))
        ∧ (observedTypes (rels.filter (fun x => aggKey x = aggKey r)) ≠ [] →
            lookupD r.properties "call_types" =
              some (.s (jsonList (observedTypes
                (rels.filter (fun x => aggKey x = aggKey r)))))) := by
  have hnd : ((rels.foldl aggStep []).map Prod.fst).Nodup :=
    nodup_foldl_aggStep_keys rels [] (by simp)
  refine ⟨?_, ?_, ?_⟩
  · rw [aggregate_relationships_map_aggKey]
    exact hnd
  · intro k
    rw [aggregate_relationships_map_aggKey]
    exact mem_keys_foldl_aggStep rels k
  · intro r hr
    rw [aggregate_relationships, List.mem_map] at hr
    obtain ⟨kd, hkd, hconv⟩ := hr
    have hkey : aggKey r = kd.1 := by
      rw [← hconv]
      rcases kd with ⟨⟨a, b, c⟩, d⟩
      rfl
    have hl : lookupD (rels.foldl aggStep []) kd.1 = some kd.2 :=
      lookupD_of_mem_nodup _ _ _ hnd hkd
    rw [lookupD_foldl_aggStep] at hl
    by_cases he : rels.filter (fun x => aggKey x = kd.1) = []
    · rw [if_pos he] at hl
      simp [lookupD] at hl
    · rw [if_neg he] at hl
      have hnone : lookupD ([] : List ((String × String × String) × AggData)) kd.1 =
          none := rfl
      rw [hnone] at hl
      have hkd2 : kd.2 =
          (rels.filter (fun x => aggKey x = kd.1)).foldl aggUpdate aggInit := by
        have := hl.symm
        simpa using this
      have hcount : kd.2.count = (rels.filter (fun x => aggKey x = kd.1)).length := by
        rw [hkd2, foldl_aggUpdate_count]
        simp [aggInit]
      have hpats : kd.2.call_patterns =
          observedPatterns (rels.filter (fun x => aggKey x = kd.1)) := by
        rw [hkd2, foldl_aggUpdate_patterns]
        rfl
      have htyps : kd.2.call_types =
          observedTypes (rels.filter (fun x => aggKey x = kd.1)) := by
        rw [hkd2, foldl_aggUpdate_types]
        rfl
      have hrprops : r.properties =
          (let props := dictInsert kd.2.properties "call_count" (.n kd.2.count)
           let props :=
             if kd.2.call_patterns.isEmpty then props
             else dictInsert props "call_patterns" (.s (jsonList kd.2.call_patterns))
           match kd.2.call_types with
           | [] => props
           | t :: _ =>
             dictInsert (dictInsert props "call_types"
                 (.s (jsonList kd.2.call_types))) "call_type" (.s t)) := by
        rw [← hconv]
      rw [hkey]
      refine ⟨?_, ?_, ?_, ?_, ?_, ?_, ?_⟩
      · rw [hrprops, ← hcount]
        cases htv : kd.2.call_types with
        | nil =>
          simp only []
          by_cases hpe : kd.2.call_patterns.isEmpty <;>
            simp [hpe, lookupD_dictInsert]
        | cons t ts =>
          simp only []
          by_cases hpe : kd.2.call_patterns.isEmpty <;>
            simp [hpe, lookupD_dictInsert]
      · exact hpats ▸ (hpats.symm ▸ nodup_foldl_patStep _ [] (by simp))
      · intro p
        rw [observedPatterns, mem_foldl_patStep]
        simp only [List.not_mem_nil, false_or, List.mem_filter, decide_eq_true_eq]
        constructor
        · rintro ⟨x, ⟨hx1, hx2⟩, hx3⟩
          exact ⟨x, hx1, hx2, hx3⟩
        · rintro ⟨x, hx1, hx2, hx3⟩
          exact ⟨x, ⟨hx1, hx2⟩, hx3⟩
      · intro hne
        have hpe : ¬ kd.2.call_patterns.isEmpty = true := by
          rw [hpats]
          simpa [List.isEmpty_iff] using hne
        rw [hrprops, ← hpats]
        cases htv : kd.2.call_types with
        | nil => simp [hpe, lookupD_dictInsert]
        | cons t ts => simp [hpe, lookupD_dictInsert]
      · exact nodup_foldl_typStep _ [] (by simp)
      · intro t
        rw [observedTypes, mem_foldl_typStep]
        simp only [List.not_mem_nil, false_or, List.mem_filter, decide_eq_true_eq]
        constructor
        · rintro ⟨x, ⟨hx1, hx2⟩, hx3⟩
          exact ⟨x, hx1, hx2, hx3⟩
        · rintro ⟨x, hx1, hx2, hx3⟩
          exact ⟨x, ⟨hx1, hx2⟩, hx3⟩
      · intro hne
        rw [hrprops, ← htyps]
        cases htv : kd.2.call_types with
        | nil =>
          rw [htyps] at htv
          exact absurd htv hne
        | cons t ts =>
          by_cases hpe : kd.2.call_patterns.isEmpty <;>
            simp [hpe, lookupD_dictInsert]

/-- Three raw relationships, two of which share the key
`("a", "b", "CALLS_METHOD")` with different call patterns. -/
def demoRels : List GRel :=
  [⟨"a", "b", "CALLS_METHOD",
    [("call_type", .s "direct_function"), ("call_pattern", .s "foo(")]⟩,
   ⟨"a", "b", "CALLS_METHOD",
    [("call_type", .s "direct_function"), ("call_pattern", .s "foo (")]⟩,
   ⟨"c", "d", "HAS_METHOD", []⟩]

/-- The aggregated relationship `aggregate_relationships demoRels` emits
for the doubled key. -/
def demoAggOut : GRel :=
  ⟨"a", "b", "CALLS_METHOD",
   [("call_type", .s "direct_function"), ("call_pattern", .s "foo("),
    ("call_count", .n 2), ("call_patterns", .s "[\"foo(\", \"foo (\"]"),
    ("call_types", .s "[\"direct_function\"]")]⟩

/-- Witness for `aggregation_invariant` at a concrete relationship list. -/
theorem aggregation_invariant_witness :
    demoAggOut ∈ aggregate_relationships demoRels ∧
    lookupD demoAggOut.properties "call_count" =
      some (.n ((demoRels.filter (fun x => aggKey x = aggKey demoAggOut)).length)) :=
  ⟨by decide, ((aggregation_invariant demoRels).2.2 demoAggOut (by decide)).1⟩

/-! ## C4: block count -/

theorem pkgMatch_none_of_shebang (s : String) (h : strStartsWith s "#!" = true) :
    pkgMatch s = none := by
  obtain ⟨t, ht⟩ := List.isPrefixOf_iff_prefix.mp h
  have hdata : s.data = '#' :: '!' :: t := ht.symm
  unfold pkgMatch strStartsWith
  rw [hdata]
  simp [List.isPrefixOf]

theorem lines_addLine (b : RawBlock) (l : String) :
    (b.addLine l).lines = b.lines ++ [l] := by
  cases b <;> rfl

theorem segmentsAux_length (ls : List String) :
    ∀ cur, (segmentsAux cur ls).length = countPkgLines ls + 1 := by
  induction ls with
  | nil => intro cur; rfl
  | cons l ls ih =>
    intro cur
    simp only [segmentsAux, countPkgLines, List.filter]
    by_cases hsb : strStartsWith (pstrip l) "#!"
    · rw [if_pos hsb, pkgMatch_none_of_shebang _ hsb]
      simpa [countPkgLines] using ih cur
    · rw [if_neg hsb]
      cases hpm : pkgMatch (pstrip l) with
      | some nm =>
        rw [if_pos (by simp [hpm])]
        simp only [hpm, Option.isSome_some, List.length_cons]
        simpa [countPkgLines] using ih ([] : List String)
      | none =>
        rw [if_neg (by simp [hpm])]
        simp only [hpm, Option.isSome_none]
        simpa [countPkgLines] using ih (cur ++ [l])

theorem parseBlocksAux_length (ls : List String) :
    ∀ cur : RawBlock, (parseBlocksAux cur ls).length =
      ((segmentsAux cur.lines ls).filter hasContentL).length := by
  induction ls with
  | nil =>
    intro cur
    simp only [parseBlocksAux, segmentsAux, List.filter]
    by_cases h : cur.hasContent
    · rw [if_pos h]
      have h' : hasContentL cur.lines = true := h
      simp [h']
    · rw [if_neg h]
      have h' : ¬ hasContentL cur.lines = true := h
      simp [h']
  | cons l ls ih =>
    intro cur
    by_cases hsb : strStartsWith (pstrip l) "#!"
    · simp only [parseBlocksAux, segmentsAux, hsb, if_true]
      exact ih cur
    · cases hpm : pkgMatch (pstrip l) with
      | some nm =>
        have h2 := ih (RawBlock.pkgBlock nm [])
        simp only [RawBlock.lines] at h2
        by_cases h : cur.hasContent
        · have h' : hasContentL cur.lines = true := h
          simp [parseBlocksAux, segmentsAux, hsb, hpm, List.filter_cons, h, h', h2]
        · have h' : hasContentL cur.lines = false := by
            simpa using h
          simp [parseBlocksAux, segmentsAux, hsb, hpm, List.filter_cons, h, h', h2]
      | none =>
        have h2 := ih (cur.addLine l)
        rw [lines_addLine] at h2
        simp [parseBlocksAux, segmentsAux, hsb, hpm, h2]

/-- C4 (amended): the number of emitted Blocks equals the number of
segments of the file (the leading global segment plus one segment per
namespace-declaration line, shebang lines dropped) that contain at least
one non-blank line — any segment without content is discarded, whether it
is the leading global segment or a namespace segment, not only a leading
global block of a file beginning with a namespace declaration. -/
theorem block_count (lines : List String) :
    (parse_perl_file_to_blocks lines).length =
      ((segments lines).filter hasContentL).length
    ∧ (segments lines).length = countPkgLines lines + 1 :=
  ⟨parseBlocksAux_length lines (.globalScope []), segmentsAux_length lines []⟩

/-- C4, counterexample.  The one-line file `package A;` begins with a
namespace declaration, so the claim predicts one namespace-declaration
line plus one Block minus the omitted empty leading global block: exactly
one emitted Block.  The segmenter emits zero Blocks, because the package
block itself has no content lines and is dropped by the same non-blank
check (perform_perl_parser.py lines 68 and 79). -/
theorem block_count_cex :
    (parse_perl_file_to_blocks ["package A;\n"]).length = 0
    ∧ countPkgLines ["package A;\n"] = 1 :=
  ⟨by decide, by decide⟩

/-! ## C5 and C6: definition opening and unbalanced extraction -/

theorem useMatch_none_of_sub (s : String) (h : strStartsWith s "sub " = true) :
    useMatch s = none := by
  obtain ⟨t, ht⟩ := List.isPrefixOf_iff_prefix.mp h
  have hdata : s.data = 's' :: 'u' :: 'b' :: ' ' :: t := ht.symm
  unfold useMatch strStartsWith
  rw [hdata]
  simp [List.isPrefixOf]

theorem pbcGo_nil (pkg : Option String) (n : Nat) : pbcGo pkg n [] = ⟨[], [], []⟩ := by
  cases n <;> rfl

/-- C5 (amended): a line whose stripped text opens with the definition
keyword and an identifier but carries no opening brace on that same line
does not trigger brace-balanced extraction; the line is classified as
residual executable code and scanning continues with the next line.  Only
a keyword line that itself contains `{` starts a Definition
(perform_perl_parser.py line 108). -/
theorem sub_without_brace_is_residual (l : String) (ls : List String)
    (pkg : Option String) (nm : String)
    (h1 : strStartsWith (pstrip l) "sub " = true)
    (h2 : subMatch (pstrip l) = some nm)
    (h3 : strContains l '{' = false) :
    parse_block_content (l :: ls) pkg =
      ⟨(parse_block_content ls pkg).use_statements,
       (parse_block_content ls pkg).methods,
       l :: (parse_block_content ls pkg).execution_lines⟩ := by
  unfold parse_block_content
  simp only [List.length_cons]
  rw [show pbcGo pkg (ls.length + 1) (l :: ls) =
    (match useMatch (pstrip l) with
     | some m =>
       ⟨⟨m⟩ :: (pbcGo pkg ls.length ls).use_statements,
        (pbcGo pkg ls.length ls).methods,
        (pbcGo pkg ls.length ls).execution_lines⟩
     | none =>
       match (if strStartsWith (pstrip l) "sub " then subMatch (pstrip l) else none),
           strContains l '{' with
       | some nm', true =>
         ⟨(pbcGo pkg ls.length (consumeBody (braceDelta l) ls).2).use_statements,
          ⟨nm',
           extractParams
             (extractBody (strJoin (l :: (consumeBody (braceDelta l) ls).1))),
           extractBody (strJoin (l :: (consumeBody (braceDelta l) ls).1)), pkg,
           pyFullName pkg nm'⟩ ::
            (pbcGo pkg ls.length (consumeBody (braceDelta l) ls).2).methods,
          (pbcGo pkg ls.length (consumeBody (braceDelta l) ls).2).execution_lines⟩
       | _, _ =>
         ⟨(pbcGo pkg ls.length ls).use_statements, (pbcGo pkg ls.length ls).methods,
          l :: (pbcGo pkg ls.length ls).execution_lines⟩) from rfl]
  rw [useMatch_none_of_sub _ h1]
  simp only [h1, if_true, h2, h3]

/-- C5, counterexample.  The block whose first line is `sub foo` (keyword
plus identifier, matched by the name pattern as the third conjunct shows)
with the opening brace only on the next line yields no Definition: all four
lines land in the residual execution lines, contradicting the claim that
extraction is triggered when the brace appears on a later line. -/
theorem sub_later_brace_cex :
    (parse_block_content ["sub foo\n", "\x7b\n", "return 1;\n", "\x7d\n"]
        none).methods = []
    ∧ (parse_block_content ["sub foo\n", "\x7b\n", "return 1;\n", "\x7d\n"]
        none).execution_lines = ["sub foo\n", "\x7b\n", "return 1;\n", "\x7d\n"]
    ∧ subMatch (pstrip "sub foo\n") = some "foo" :=
  ⟨by decide, by decide, by decide⟩

/-- Witness for `sub_without_brace_is_residual` at a concrete block. -/
theorem sub_without_brace_is_residual_witness :
    parse_block_content ["sub foo\n", "\x7b\n", "\x7d\n"] none =
      ⟨(parse_block_content ["\x7b\n", "\x7d\n"] none).use_statements,
       (parse_block_content ["\x7b\n", "\x7d\n"] none).methods,
       "sub foo\n" :: (parse_block_content ["\x7b\n", "\x7d\n"] none).execution_lines⟩ :=
  sub_without_brace_is_residual "sub foo\n" ["\x7b\n", "\x7d\n"] none "foo"
    (by decide) (by decide) (by decide)

/-- The loop guard of the brace scanner holds at every step: the running
brace count stays strictly positive across all remaining lines, so the
scanner never rebalances before end of input. -/
def allPositive : Int → List String → Bool
  | _, [] => true
  | c, x :: xs => decide (0 < c) && allPositive (c + braceDelta x) xs

theorem consumeBody_all (c : Int) (ls : List String)
    (h : allPositive c ls = true) : consumeBody c ls = (ls, []) := by
  induction ls generalizing c with
  | nil => rfl
  | cons x xs ih =>
    unfold allPositive at h
    rw [Bool.and_eq_true, decide_eq_true_eq] at h
    unfold consumeBody
    rw [if_pos h.1, ih _ h.2]

/-- Follows claim C6's words, not the source: the best-effort body is the
text between the first opening brace and the last closing brace of the
consumed span (stripped, as every extracted body is); it is undefined
when either brace is absent. -/
def bestEffortBodySpec (full : String) : Option String :=
  match full.data.findIdx? (· = '{'), full.data.reverse.findIdx? (· = '}') with
  | some i, some rj =>
    some (pstrip ⟨(full.data.drop (i + 1)).take (full.data.length - 1 - rj - (i + 1))⟩)
  | _, _ => none

theorem findIdx?_isSome_of_mem {α : Type} (cs : List α) (p : α → Bool) (c : α)
    (hc : c ∈ cs) (hp : p c = true) : (cs.findIdx? p).isSome = true := by
  induction cs with
  | nil => simp at hc
  | cons x xs ih =>
    rcases List.mem_cons.mp hc with rfl | hmem
    · simp [List.findIdx?, hp]
    · by_cases hx : p x
      · simp [List.findIdx?, hx]
      · simpa [List.findIdx?, hx] using ih hmem

/-- C6: unbalanced-definition tolerance.  When a definition opens on the
first line of the remaining block and the running brace count never
returns to zero before end of input, the classifier consumes every
remaining line and still emits exactly one Definition whose body is the
best-effort text between the first `{` and the last `}` of the consumed
span; the block's classification completes with that single method and
empty residual, and no error path exists. -/
theorem unbalanced_sub_best_effort (l : String) (ls : List String)
    (pkg : Option String) (nm : String)
    (h1 : strStartsWith (pstrip l) "sub " = true)
    (h2 : subMatch (pstrip l) = some nm)
    (h4 : strContains l '{' = true)
    (h5 : allPositive (braceDelta l) ls = true)
    (h6 : strContains (strJoin (l :: ls)) '}' = true) :
    parse_block_content (l :: ls) pkg =
      ⟨[], [⟨nm, extractParams (extractBody (strJoin (l :: ls))),
            extractBody (strJoin (l :: ls)), pkg, pyFullName pkg nm⟩], []⟩
    ∧ bestEffortBodySpec (strJoin (l :: ls)) =
        some (extractBody (strJoin (l :: ls))) := by
  constructor
  · unfold parse_block_content
    simp only [List.length_cons]
    rw [show pbcGo pkg (ls.length + 1) (l :: ls) =
    (match useMatch (pstrip l) with
     | some m =>
       ⟨⟨m⟩ :: (pbcGo pkg ls.length ls).use_statements,
        (pbcGo pkg ls.length ls).methods,
        (pbcGo pkg ls.length ls).execution_lines⟩
     | none =>
       match (if strStartsWith (pstrip l) "sub " then subMatch (pstrip l) else none),
           strContains l '{' with
       | some nm', true =>
         ⟨(pbcGo pkg ls.length (consumeBody (braceDelta l) ls).2).use_statements,
          ⟨nm',
           extractParams
             (extractBody (strJoin (l :: (consumeBody (braceDelta l) ls).1))),
           extractBody (strJoin (l :: (consumeBody (braceDelta l) ls).1)), pkg,
           pyFullName pkg nm'⟩ ::
            (pbcGo pkg ls.length (consumeBody (braceDelta l) ls).2).methods,
          (pbcGo pkg ls.length (consumeBody (braceDelta l) ls).2).execution_lines⟩
       | _, _ =>
         ⟨(pbcGo pkg ls.length ls).use_statements, (pbcGo pkg ls.length ls).methods,
          l :: (pbcGo pkg ls.length ls).execution_lines⟩) from rfl]
    rw [useMatch_none_of_sub _ h1]
    simp only [h1, if_true, h2, h4, consumeBody_all _ _ h5, pbcGo_nil]
  · have hopen : (((strJoin (l :: ls)).data.findIdx? (· = '{')).isSome) = true := by
      apply findIdx?_isSome_of_mem _ _ '{'
      · have : '{' ∈ l.data := by
          unfold strContains at h4
          simpa using h4
        unfold strJoin
        simp only [List.map_cons, List.flatten_cons]
        exact List.mem_append_left _ this
      · decide
    have hclose : ((strJoin (l :: ls)).data.reverse.findIdx? (· = '}')).isSome = true := by
      apply findIdx?_isSome_of_mem _ _ '}'
      · unfold strContains at h6
        rw [List.mem_reverse]
        simpa using h6
      · decide
    obtain ⟨i, hi⟩ := Option.isSome_iff_exists.mp hopen
    obtain ⟨rj, hrj⟩ := Option.isSome_iff_exists.mp hclose
    unfold bestEffortBodySpec extractBody
    simp only [hi, hrj]

/-- Witness for `unbalanced_sub_best_effort` at a concrete never-balancing
block (the sub opens one brace that is never closed before end of input). -/
theorem unbalanced_sub_best_effort_witness :
    parse_block_content
        ["sub foo \x7b\n", "my $x = 1;\n", "if (1) \x7b \x7d\n"] (some "A") =
      ⟨[],
       [⟨"foo",
         extractParams (extractBody (strJoin
           ["sub foo \x7b\n", "my $x = 1;\n", "if (1) \x7b \x7d\n"])),
         extractBody (strJoin
           ["sub foo \x7b\n", "my $x = 1;\n", "if (1) \x7b \x7d\n"]),
         some "A", pyFullName (some "A") "foo"⟩], []⟩
    ∧ bestEffortBodySpec (strJoin
          ["sub foo \x7b\n", "my $x = 1;\n", "if (1) \x7b \x7d\n"]) =
        some (extractBody (strJoin
          ["sub foo \x7b\n", "my $x = 1;\n", "if (1) \x7b \x7d\n"])) :=
  unbalanced_sub_best_effort "sub foo \x7b\n" ["my $x = 1;\n", "if (1) \x7b \x7d\n"]
    (some "A") "foo" (by decide) (by decide) (by decide) (by decide) (by decide)

/-! ## C7: dependency edges -/

instance {ε α : Type} [DecidableEq ε] [DecidableEq α] :
    DecidableEq (Except ε α) := fun x y =>
  match x, y with
  | .ok a, .ok b =>
    if h : a = b then isTrue (by rw [h])
    else isFalse (by intro hc; cases hc; exact h rfl)
  | .error a, .error b =>
    if h : a = b then isTrue (by rw [h])
    else isFalse (by intro hc; cases hc; exact h rfl)
  | .ok _, .error _ => isFalse (by intro hc; cases hc)
  | .error _, .ok _ => isFalse (by intro hc; cases hc)

theorem lookupD_append {κ α : Type} [DecidableEq κ] (a b : List (κ × α)) (k : κ) :
    lookupD (a ++ b) k = Option.or (lookupD a k) (lookupD b k) := by
  induction a with
  | nil => simp [lookupD]
  | cons kv rest ih =>
    obtain ⟨k₀, v₀⟩ := kv
    by_cases h : k₀ = k <;> simp [lookupD, h, ih]

theorem mem_depAdd_self (acc : List (String × List String)) (k v : String) :
    v ∈ (lookupD (depAdd acc k v) k).getD [] := by
  unfold depAdd
  cases h : lookupD acc k with
  | some s =>
    rw [lookupD_dictInsert, if_pos rfl]
    exact (mem_setAdd s v v).mpr (Or.inr rfl)
  | none =>
    rw [lookupD_append, h]
    simp [lookupD, Option.or]

theorem mem_depAdd_mono (acc : List (String × List String)) (k v f x : String)
    (h : x ∈ (lookupD acc f).getD []) :
    x ∈ (lookupD (depAdd acc k v) f).getD [] := by
  unfold depAdd
  cases hk : lookupD acc k with
  | some s =>
    rw [lookupD_dictInsert]
    by_cases hf : k = f
    · subst hf
      rw [if_pos rfl]
      rw [hk] at h
      exact (mem_setAdd s v x).mpr (Or.inl h)
    · rwa [if_neg hf]
  | none =>
    rw [lookupD_append]
    by_cases hf : k = f
    · subst hf
      rw [hk] at h
      simp at h
    · cases hacc : lookupD acc f with
      | some s =>
        rw [hacc] at h
        simpa [Option.or, hacc] using h
      | none =>
        rw [hacc] at h
        simp at h

theorem depFold_mono (pd : List (String × PkgDefInfo)) (us : List UseStmt) :
    ∀ (acc d : List (String × List String)) (f x : String),
      depFold pd acc us = .ok d → x ∈ (lookupD acc f).getD [] →
      x ∈ (lookupD d f).getD [] := by
  induction us with
  | nil =>
    intro acc d f x h1 h
    unfold depFold at h1
    cases h1
    exact h
  | cons u us ih =>
    intro acc d f x h1 h
    unfold depFold at h1
    cases hfw : firstWord u.module with
    | none =>
      simp only [hfw] at h1
      exact Except.noConfusion h1
    | some w =>
      simp only [hfw] at h1
      cases hpd : lookupD pd w with
      | some info =>
        simp only [hpd] at h1
        exact ih _ _ _ _ h1 (mem_depAdd_mono _ _ _ _ _ h)
      | none =>
        simp only [hpd] at h1
        exact ih _ _ _ _ h1 h

theorem depFold_mem (pd : List (String × PkgDefInfo)) (us : List UseStmt) :
    ∀ (acc d : List (String × List String)) (u : UseStmt) (w : String)
      (info : PkgDefInfo),
      u ∈ us → firstWord u.module = some w → lookupD pd w = some info →
      depFold pd acc us = .ok d →
      info.file ∈ (lookupD d u.source_file).getD [] := by
  induction us with
  | nil =>
    intro acc d u w info hu
    simp at hu
  | cons x xs ih =>
    intro acc d u w info hu h3 h4 h1
    unfold depFold at h1
    cases hfw : firstWord x.module with
    | none =>
      simp only [hfw] at h1
      exact Except.noConfusion h1
    | some wx =>
      simp only [hfw] at h1
      rcases List.mem_cons.mp hu with rfl | hmem
      · rw [h3] at hfw
        cases hfw
        simp only [h4] at h1
        exact depFold_mono pd xs _ _ _ _ h1 (mem_depAdd_self _ _ _)
      · cases hpd : lookupD pd wx with
        | some infox =>
          simp only [hpd] at h1
          exact ih _ _ _ _ _ hmem h3 h4 h1
        | none =>
          simp only [hpd] at h1
          exact ih _ _ _ _ _ hmem h3 h4 h1

/-- C7 (amended): a Dependency edge from the importing file to a scope's
owning file is emitted for an Import whenever the import's module name
(first whitespace-separated word) matches a known named scope in the
package-definition registry — with no comparison of the two files, so
importing a scope declared in the importing file itself produces a
self-edge. -/
theorem dependency_edge_emitted (files : List PerlFileAST) (u : UseStmt)
    (w : String) (info : PkgDefInfo)
    (r : List (String × List String) × List (String × PkgDefInfo))
    (h1 : analyze_dependencies files = .ok r)
    (h2 : u ∈ all_use_statements files)
    (h3 : firstWord u.module = some w)
    (h4 : lookupD (package_definitions files) w = some info) :
    info.file ∈ (lookupD r.1 u.source_file).getD [] := by
  unfold analyze_dependencies at h1
  cases hdf : depFold (package_definitions files) [] (all_use_statements files) with
  | error e =>
    simp only [hdf, Except.map] at h1
    exact Except.noConfusion h1
  | ok d =>
    simp only [hdf, Except.map] at h1
    cases h1
    exact depFold_mem _ _ _ _ _ _ _ h2 h3 h4 hdf

/-- The AST `create_ast_from_file` produces for a file that both imports
and declares the scope `Foo` (checked in `dependency_self_edge_cex`). -/
def astUseFoo : PerlFileAST :=
  ⟨"a.pl", [⟨"Foo", "a.pl"⟩],
   [⟨"Foo", [], [], some ⟨"our $x = 1;", "a.pl"⟩, "a.pl"⟩],
   some ⟨"", "a.pl", []⟩⟩

/-- C7, counterexample.  A single file `a.pl` saying `use Foo;` and then
declaring `package Foo;` produces — end to end through the parser and
`analyze_dependencies` — the dependency set `a.pl -> {a.pl}`: a
dependency edge from the file to itself, which the claim rules out.  The
code (perform_perl_parser.py lines 381-387) never compares the importing
file with the scope's owning file. -/
theorem dependency_self_edge_cex :
    create_ast_from_file "a.pl" ["use Foo;\n", "package Foo;\n", "our $x = 1;\n"] =
      some astUseFoo
    ∧ analyze_dependencies [astUseFoo] =
        .ok ([("a.pl", ["a.pl"])], [("Foo", ⟨"a.pl", []⟩)]) :=
  ⟨by decide, by decide⟩

/-- Witness for `dependency_edge_emitted` at the concrete one-file input. -/
theorem dependency_edge_emitted_witness :
    ("a.pl" : String) ∈
      (lookupD [("a.pl", ["a.pl"])] "a.pl").getD ([] : List String) :=
  dependency_edge_emitted [astUseFoo] ⟨"Foo", "a.pl"⟩ "Foo" ⟨"a.pl", []⟩
    ([("a.pl", ["a.pl"])], [("Foo", ⟨"a.pl", []⟩)])
    (by decide) (by decide) (by decide) (by decide)

/-! ## C8: shebang/blank-only files -/

theorem parseBlocksAux_blank (ls : List String)
    (h : ∀ l ∈ ls, pstrip l = "" ∨ strStartsWith (pstrip l) "#!" = true) :
    ∀ cur : RawBlock, (∀ l ∈ cur.lines, pstrip l = "") →
      parseBlocksAux cur ls = [] := by
  induction ls with
  | nil =>
    intro cur hcur
    unfold parseBlocksAux
    have hnc : cur.hasContent = false := by
      unfold RawBlock.hasContent hasContentL
      rw [List.any_eq_false]
      intro l hl
      rw [hcur l hl]
      decide
    rw [hnc]
    simp
  | cons l ls ih =>
    intro cur hcur
    rcases h l (List.mem_cons_self l ls) with hb | hsb
    · have hrest : ∀ x ∈ ls, pstrip x = "" ∨ strStartsWith (pstrip x) "#!" = true :=
        fun x hx => h x (List.mem_cons_of_mem l hx)
      simp only [parseBlocksAux, hb]
      rw [show strStartsWith "" "#!" = false from by decide,
        show pkgMatch "" = none from by decide]
      simp only [Bool.false_eq_true, if_false]
      apply ih hrest
      rw [lines_addLine]
      intro x hx
      rcases List.mem_append.mp hx with hx1 | hx2
      · exact hcur x hx1
      · rw [List.mem_singleton.mp hx2]
        exact hb
    · have hrest : ∀ x ∈ ls, pstrip x = "" ∨ strStartsWith (pstrip x) "#!" = true :=
        fun x hx => h x (List.mem_cons_of_mem l hx)
      simp only [parseBlocksAux, hsb, if_true]
      exact ih hrest cur hcur

/-- C8 (amended): a file whose lines are only shebang and blank lines
yields no raw blocks at all; `create_ast_from_file` then returns no AST
and `process_single_file` reports the file as failed with the error
`Failed to create AST` — it is not turned into an empty SourceFile. -/
theorem shebang_blank_file_failed (perl_file : String) (lines : List String)
    (h : ∀ l ∈ lines, pstrip l = "" ∨ strStartsWith (pstrip l) "#!" = true) :
    process_single_file perl_file lines =
      ⟨perl_file, "failed", some "Failed to create AST", none⟩ := by
  have hblocks : parse_perl_file_to_blocks lines = [] :=
    parseBlocksAux_blank lines h (.globalScope [])
      (by intro l hl; simp [RawBlock.lines] at hl)
  unfold process_single_file create_ast_from_file
  rw [hblocks]
  rfl

/-- C8, counterexample.  A file holding only a shebang line and blank
lines is reported as a failed file with error `Failed to create AST`
(perform_perl_parser.py lines 149-150 and 414-415), not processed
successfully into a SourceFile with zero blocks as the claim states. -/
theorem shebang_blank_file_cex :
    process_single_file "empty.pl" ["#!/usr/bin/perl\n", "\n", "   \n"] =
      ⟨"empty.pl", "failed", some "Failed to create AST", none⟩ := by
  decide

/-- Witness for `shebang_blank_file_failed` at a concrete file. -/
theorem shebang_blank_file_failed_witness :
    process_single_file "w.pl" ["#!/usr/bin/env perl\n", "  \n"] =
      ⟨"w.pl", "failed", some "Failed to create AST", none⟩ :=
  shebang_blank_file_failed "w.pl" ["#!/usr/bin/env perl\n", "  \n"] (by
    intro l hl
    rcases List.mem_cons.mp hl with rfl | hl2
    · exact Or.inr (by decide)
    · rw [List.mem_singleton.mp hl2]
      exact Or.inl (by decide))

/-! ## C9: call-edge caller endpoints -/

theorem script_node_exists (file_id : String) (pkg : PackageDecl) (se : ScriptExec)
    (hs : pkg.script_execution = some se) :
    ∃ n ∈ (transformPackage file_id pkg).1,
      n.id = "script_" ++ ("package_" ++ file_id ++ "_" ++ normalize_id pkg.name) := by
  unfold transformPackage
  simp only [hs]
  exact ⟨_, List.mem_cons_of_mem _
    (List.mem_append_right _ (List.mem_singleton_self _)), rfl⟩

theorem node_mem_transformFile (f : PerlFileAST) (pkg : PackageDecl) (n : GNode)
    (hp : pkg ∈ f.packages)
    (hn : n ∈ (transformPackage ("file_" ++ normalize_id f.source_file) pkg).1) :
    n ∈ (transformFile f).1 := by
  unfold transformFile
  apply List.mem_cons_of_mem
  apply List.mem_append_right
  rw [List.map_map]
  exact List.mem_flatten.mpr
    ⟨(transformPackage ("file_" ++ normalize_id f.source_file) pkg).1,
     List.mem_map_of_mem _ hp, hn⟩

theorem node_mem_transform (ast : ProjectAST) (f : PerlFileAST) (n : GNode)
    (hf : f ∈ ast.files) (hn : n ∈ (transformFile f).1) :
    n ∈ (transform_perl_ast ast).1 := by
  unfold transform_perl_ast
  show n ∈ ((ast.files.map transformFile).map Prod.fst).flatten
  rw [List.map_map]
  exact List.mem_flatten.mpr ⟨(transformFile f).1, List.mem_map_of_mem _ hf, hn⟩

/-- C9 (amended): a CallEdge relationship's `from_id` is the caller's
method id when the call site is inside a named definition, and otherwise
the synthetic per-scope script id
`script_package_file_(caller file)_(caller package)`.  When the caller
package is a real package of the caller's file and has script-execution
content — the only way the resolver produces a package-scoped call site
with no method — that id is the emitted script node's id.  A call site in
a file's global scope instead yields caller package `global`, whose
synthetic id matches no emitted node (see the counterexample). -/
theorem script_caller_node_exists (ast : ProjectAST) (call : CrossFileCall)
    (f : PerlFileAST) (pkg : PackageDecl) (se : ScriptExec)
    (hf : f ∈ ast.files) (hp : pkg ∈ f.packages)
    (hs : pkg.script_execution = some se)
    (hcf : call.caller_file = f.source_file) (hcp : call.caller_package = pkg.name)
    (hcm : call.caller_method = none) :
    (callRel call).from_id = generate_method_caller_id call
    ∧ generate_method_caller_id call ∈ (transform_perl_ast ast).1.map GNode.id := by
  refine ⟨rfl, ?_⟩
  have hid : generate_method_caller_id call =
      "script_" ++ ("package_" ++ ("file_" ++ normalize_id f.source_file) ++ "_" ++
        normalize_id pkg.name) := by
    unfold generate_method_caller_id
    rw [hcm, hcf, hcp]
    rw [if_pos (by decide)]
    rw [← String.append_assoc "package_" "file_" (normalize_id f.source_file)]
    rfl
  obtain ⟨n, hn, hnid⟩ :=
    script_node_exists ("file_" ++ normalize_id f.source_file) pkg se hs
  rw [hid]
  exact List.mem_map.mpr
    ⟨n, node_mem_transform ast f n hf (node_mem_transformFile f pkg n hp hn), hnid⟩

/-- A file declaring package `Animal` with a method `speak`. -/
def astAnimal : PerlFileAST :=
  ⟨"animal.pm", [],
   [⟨"Animal", [], [⟨"speak", [], "print 1;", some "Animal", "Animal::speak"⟩],
     none, "animal.pm"⟩],
   none⟩

/-- A file whose only content is global-scope code calling `speak()`. -/
def astMainGlobal : PerlFileAST :=
  ⟨"main.pl", [], [], some ⟨"speak();", "main.pl", []⟩⟩

/-- The call record the resolver emits for the global-scope call site of
`main.pl` (checked inside `call_edge_global_caller_cex`). -/
def callFromGlobal : CrossFileCall :=
  ⟨"main.pl", "global", none, "animal.pm", "Animal", "speak", "Animal::speak",
   "speak(", "direct_function"⟩

def demoProject : ProjectAST := ⟨[astAnimal, astMainGlobal], [callFromGlobal]⟩

/-- C9, counterexample.  The first conjunct checks that `callFromGlobal`
is exactly what the resolver's direct-function matcher produces for the
global-scope body of `main.pl` (caller package is the literal string
`global`, per perform_perl_parser.py line 265).  The transformer then
emits one CALLS_METHOD relationship whose `from_id` is
`script_package_file_main_pl_global` — but no emitted node carries that
id, because a file's global scope gets no script node (its body is stored
as a property of the FILE node, neo4j_writer.py lines 95-98), so the
claim's universally asserted endpoint existence fails for global-scope
call sites. -/
theorem call_edge_global_caller_cex :
    directFunctionCallsInCode "speak();"
        (global_function_registry [astAnimal, astMainGlobal]) "main.pl" "global"
        none = [callFromGlobal]
    ∧ ((transform_perl_ast demoProject).2.filter
        (fun r => r.rtype = "CALLS_METHOD")).map GRel.from_id =
      ["script_package_file_main_pl_global"]
    ∧ ((transform_perl_ast demoProject).1.map GNode.id).contains
        "script_package_file_main_pl_global" = false :=
  ⟨by decide, by decide, by decide⟩

/-- The same two files with the caller's code moved into a package script
block: `main.pl` declares package `Main` whose script body calls
`speak()`. -/
def astMainPkg : PerlFileAST :=
  ⟨"main.pl", [], [⟨"Main", [], [], some ⟨"speak();", "main.pl"⟩, "main.pl"⟩], none⟩

/-- The call record for the package-script call site. -/
def callFromPkgScript : CrossFileCall :=
  ⟨"main.pl", "Main", none, "animal.pm", "Animal", "speak", "Animal::speak",
   "speak(", "direct_function"⟩

def demoProjectPkg : ProjectAST := ⟨[astAnimal, astMainPkg], [callFromPkgScript]⟩

/-- Witness for `script_caller_node_exists` at the package-script input. -/
theorem script_caller_node_exists_witness :
    (callRel callFromPkgScript).from_id =
        generate_method_caller_id callFromPkgScript
    ∧ generate_method_caller_id callFromPkgScript ∈
        (transform_perl_ast demoProjectPkg).1.map GNode.id :=
  script_caller_node_exists demoProjectPkg callFromPkgScript astMainPkg
    ⟨"Main", [], [], some ⟨"speak();", "main.pl"⟩, "main.pl"⟩
    ⟨"speak();", "main.pl"⟩
    (by decide) (by decide) (by decide) (by decide) (by decide) (by decide)

/-! ## C10: `no` lines as imports -/

theorem rstripChars_cons_of_not_space (c : Char) (l : List Char)
    (h : isPySpace c = false) : rstripChars (c :: l) = c :: rstripChars l := by
  cases h' : rstripChars l with
  | nil => simp only [rstripChars, h', h]; rfl
  | cons x xs => simp only [rstripChars, h']

theorem pstrip_no_append (r : String) :
    (pstrip ("no " ++ r)).data = 'n' :: 'o' :: rstripChars (' ' :: r.data) := by
  unfold pstrip pstripChars
  rw [show ("no " ++ r).data = 'n' :: 'o' :: ' ' :: r.data from rfl]
  rw [List.dropWhile_cons, if_neg (by decide)]
  rw [rstripChars_cons_of_not_space 'n' _ (by decide),
    rstripChars_cons_of_not_space 'o' _ (by decide)]

theorem pstrip_use_append (r : String) :
    (pstrip ("use " ++ r)).data = 'u' :: 's' :: 'e' :: rstripChars (' ' :: r.data) := by
  unfold pstrip pstripChars
  rw [show ("use " ++ r).data = 'u' :: 's' :: 'e' :: ' ' :: r.data from rfl]
  rw [List.dropWhile_cons, if_neg (by decide)]
  rw [rstripChars_cons_of_not_space 'u' _ (by decide),
    rstripChars_cons_of_not_space 's' _ (by decide),
    rstripChars_cons_of_not_space 'e' _ (by decide)]

theorem useMatch_no_eq_use (r : String) :
    useMatch (pstrip ("no " ++ r)) = useMatch (pstrip ("use " ++ r)) := by
  unfold useMatch strStartsWith strDrop
  rw [pstrip_no_append, pstrip_use_append]
  simp [List.isPrefixOf]

theorem pstripChars_drop_leading :
    ∀ (k : Nat) (cs : List Char), k ≤ (cs.takeWhile isPySpace).length →
      pstripChars (cs.drop k) = pstripChars cs := by
  intro k
  induction k with
  | zero => intro cs _; rfl
  | succ k ih =>
    intro cs hk
    cases cs with
    | nil => simp at hk
    | cons c t =>
      have hc : isPySpace c = true := by
        by_contra hcc
        rw [List.takeWhile_cons, if_neg (by simpa using hcc)] at hk
        simp at hk
      rw [List.takeWhile_cons, if_pos hc, List.length_cons,
        Nat.succ_le_succ_iff] at hk
      rw [List.drop_succ_cons, ih t hk]
      unfold pstripChars
      rw [List.dropWhile_cons, if_pos hc]

theorem takeWhile_space_of_no_semi (w : List Char) :
    ((w.takeWhile (· != ';')).takeWhile isPySpace) = w.takeWhile isPySpace := by
  rw [List.takeWhile_takeWhile]
  congr 1
  funext a
  by_cases ha : isPySpace a
  · have hne : (a != ';') = true := by
      have : a ≠ ';' := by
        intro he
        subst he
        exact absurd ha (by decide)
      simpa using this
    simp [ha, hne]
  · simp [ha]

theorem useMatch_no_module (r m : String)
    (h : useMatch (pstrip ("no " ++ r)) = some m) :
    m = pstrip ⟨((pstrip ("no " ++ r)).data.drop 2).takeWhile (· != ';')⟩ := by
  unfold useMatch strStartsWith strDrop at h
  rw [pstrip_no_append] at h
  rw [show ("use".data.isPrefixOf
      ('n' :: 'o' :: rstripChars (' ' :: r.data))) = false from by
    simp [List.isPrefixOf]] at h
  rw [show ("no".data.isPrefixOf
      ('n' :: 'o' :: rstripChars (' ' :: r.data))) = true from by
    simp [List.isPrefixOf]] at h
  simp only [Bool.false_eq_true, if_false, if_true] at h
  rw [pstrip_no_append]
  rw [show ('n' :: 'o' :: rstripChars (' ' :: r.data)).drop 2 =
    rstripChars (' ' :: r.data) from rfl] at h ⊢
  have hkw : kwRest ⟨rstripChars (' ' :: r.data)⟩ =
      (if 1 ≤ ((rstripChars (' ' :: r.data)).takeWhile isPySpace).length ∧
          2 ≤ ((rstripChars (' ' :: r.data)).takeWhile (· != ';')).length
       then some ⟨((rstripChars (' ' :: r.data)).takeWhile (· != ';')).drop
         (min ((rstripChars (' ' :: r.data)).takeWhile isPySpace).length
           (((rstripChars (' ' :: r.data)).takeWhile (· != ';')).length - 1))⟩
       else none) := rfl
  rw [hkw] at h
  by_cases hcond : 1 ≤ ((rstripChars (' ' :: r.data)).takeWhile isPySpace).length ∧
      2 ≤ ((rstripChars (' ' :: r.data)).takeWhile (· != ';')).length
  · rw [if_pos hcond] at h
    rw [Option.map_eq_some'] at h
    obtain ⟨g, hg, hm⟩ := h
    cases hg
    subst hm
    unfold pstrip
    congr 1
    apply pstripChars_drop_leading
    rw [takeWhile_space_of_no_semi]
    exact Nat.min_le_left _ _
  · rw [if_neg hcond] at h
    simp at h

/-- One unfolding step of the classifier scan. -/
theorem pbcGo_cons (pkg : Option String) (fuel : Nat) (l : String) (ls : List String) :
    pbcGo pkg (fuel + 1) (l :: ls) =
      (match useMatch (pstrip l) with
       | some m =>
         ⟨⟨m⟩ :: (pbcGo pkg fuel ls).use_statements, (pbcGo pkg fuel ls).methods,
          (pbcGo pkg fuel ls).execution_lines⟩
       | none =>
         match (if strStartsWith (pstrip l) "sub " then subMatch (pstrip l) else none),
             strContains l '{' with
         | some nm', true =>
           ⟨(pbcGo pkg fuel (consumeBody (braceDelta l) ls).2).use_statements,
            ⟨nm',
             extractParams
               (extractBody (strJoin (l :: (consumeBody (braceDelta l) ls).1))),
             extractBody (strJoin (l :: (consumeBody (braceDelta l) ls).1)), pkg,
             pyFullName pkg nm'⟩ ::
              (pbcGo pkg fuel (consumeBody (braceDelta l) ls).2).methods,
            (pbcGo pkg fuel (consumeBody (braceDelta l) ls).2).execution_lines⟩
         | _, _ =>
           ⟨(pbcGo pkg fuel ls).use_statements, (pbcGo pkg fuel ls).methods,
            l :: (pbcGo pkg fuel ls).execution_lines⟩) := rfl

/-- C10: un-import lines are classified exactly like `use` lines.  A line
`no <rest>` that the import pattern accepts is interchangeable with
`use <rest>`: the whole classification of the block is identical, the
recorded Import carries the same module text (the stripped text after the
keyword up to the terminator), and it is prepended to the imports of the
remaining lines. -/
theorem no_import_like_use (r : String) (ls : List String) (pkg : Option String)
    (m : String) (h : useMatch (pstrip ("no " ++ r)) = some m) :
    parse_block_content (("no " ++ r) :: ls) pkg =
      parse_block_content (("use " ++ r) :: ls) pkg
    ∧ (parse_block_content (("no " ++ r) :: ls) pkg).use_statements =
        ⟨m⟩ :: (parse_block_content ls pkg).use_statements
    ∧ m = pstrip ⟨((pstrip ("no " ++ r)).data.drop 2).takeWhile (· != ';')⟩ := by
  have huse : useMatch (pstrip ("use " ++ r)) = some m :=
    (useMatch_no_eq_use r).symm.trans h
  refine ⟨?_, ?_, useMatch_no_module r m h⟩
  · unfold parse_block_content
    simp only [List.length_cons]
    rw [pbcGo_cons, pbcGo_cons, h, huse]
  · unfold parse_block_content
    simp only [List.length_cons]
    rw [pbcGo_cons, h]

/-- Witness for `no_import_like_use` at `no strict;`. -/
theorem no_import_like_use_witness :
    parse_block_content ["no strict;\n", "print 1;\n"] none =
      parse_block_content ["use strict;\n", "print 1;\n"] none
    ∧ (parse_block_content ["no strict;\n", "print 1;\n"] none).use_statements =
        ⟨"strict"⟩ :: (parse_block_content ["print 1;\n"] none).use_statements
    ∧ ("strict" : String) =
        pstrip ⟨((pstrip ("no " ++ "strict;\n")).data.drop 2).takeWhile (· != ';')⟩ := by
  have h := no_import_like_use "strict;\n" ["print 1;\n"] none "strict" (by decide)
  exact ⟨h.1, h.2.1, h.2.2⟩

end PerlPipeline
